import Mathlib

/-!
Shallow embedding of the double-entry ledger engine of `src/acct/accounting_system.py`
(class `AccountingSystem`) together with the ledger-mutating routes of
`src/acct/accounting_web_ui.py`.

Modelling conventions:
* Money amounts are modelled as exact rationals (`ℚ`), the values of the Python
  `Decimal` inputs.  The source stores amounts in SQLite `REAL` columns after a
  `float(...)` cast; that binary floating-point conversion is modelled separately
  by `rnd64`/`fsum` below, and the divergence it causes from exact decimal
  arithmetic is analysed there.  All other operations are analysed over the
  exact values.
* Dates are modelled as natural numbers in `YYYYMMDD` numeric form.  ISO date
  strings compare lexicographically in the same order as these numbers, so the
  SQL comparisons `date(t.date) <= date(?)` and `date BETWEEN ... AND ...`
  become `≤` on `Nat`.
* SQL result ordering (`ORDER BY`) is kept as the underlying list order where
  the claims at issue are order-independent (sums and set membership); this is
  noted at each definition it affects.
-/

-- The Batteries arithmetic on `Rat` is `@[irreducible]`, which blocks kernel
-- evaluation of concrete ledger computations; restore the default
-- reducibility so that `decide` can evaluate the model on concrete stores.
attribute [local semireducible] Rat.add Rat.sub Rat.mul Rat.inv

set_option maxRecDepth 1000000

inductive AccountType where
  | ASSET
  | LIABILITY
  | EQUITY
  | REVENUE
  | EXPENSE
deriving DecidableEq

structure Account where
  id : String
  name : String
  account_type : AccountType
  parent_id : Option String
  description : String
  is_active : Bool
deriving DecidableEq

structure Txn where
  id : String
  tdate : Nat
  description : String
  reference : String
deriving DecidableEq

structure Entry where
  id : String
  transaction_id : String
  account_id : String
  debit_amount : ℚ
  credit_amount : ℚ
  description : String
deriving DecidableEq

/-- The three ledger tables of `setup_database`: `accounts`, `transactions` and
`transaction_entries`.  (The `ofx_imports` audit table records only import
metadata — a wall-clock id, a file hash and a count — and is not part of the
ledger state the claims quantify over.) -/
structure Store where
  accounts : List Account
  transactions : List Txn
  entries : List Entry
deriving DecidableEq

/-- One element of the `entries` argument of `create_transaction`:
an `(account_id, debit, credit, description)` tuple. -/
structure EntryInput where
  account_id : String
  debit : ℚ
  credit : ℚ
  description : String
deriving DecidableEq

/-- `account_type in ['ASSET', 'EXPENSE']`, the debit-normal test used by
`get_account_balance`, `generate_trial_balance` and
`get_account_transaction_history`. -/
def debitNormal : AccountType → Bool
  | .ASSET => true
  | .EXPENSE => true
  | _ => false

/-- `sum(entry[1] for entry in entries)` in `create_transaction`. -/
def sumDebits (es : List EntryInput) : ℚ := (es.map (·.debit)).sum

/-- `sum(entry[2] for entry in entries)` in `create_transaction`. -/
def sumCredits (es : List EntryInput) : ℚ := (es.map (·.credit)).sum

def sumEntryDebits (es : List Entry) : ℚ := (es.map (·.debit_amount)).sum

def sumEntryCredits (es : List Entry) : ℚ := (es.map (·.credit_amount)).sum

/-- The signed value of a list of entries, `Σ (debit − credit)` — the §3
balance formula of the spec before polarity is applied. -/
def signedSum (es : List Entry) : ℚ :=
  (es.map (fun e => e.debit_amount - e.credit_amount)).sum

/-- The rows of `transaction_entries` belonging to one transaction id. -/
def entriesOfTxn (s : Store) (tid : String) : List Entry :=
  s.entries.filter (fun e => e.transaction_id == tid)

def idsOfTxns (s : Store) : List String := s.transactions.map (·.id)

/-- `create_account` (`accounting_system.py:183`): `INSERT OR IGNORE`, returning
`cursor.rowcount > 0`, i.e. `false` and no change when the id already exists. -/
def create_account (s : Store) (aid nm : String) (atype : AccountType)
    (parent : Option String) (descr : String) : Bool × Store :=
  if s.accounts.any (fun a => a.id == aid) then (false, s)
  else (true, { s with accounts := s.accounts ++ [⟨aid, nm, atype, parent, descr, true⟩] })

/-- The seed chart of accounts of `setup_chart_of_accounts`
(`accounting_system.py:135`). -/
def standardAccounts : List (String × String × AccountType × Option String) :=
  [ ("1000", "ASSETS", .ASSET, none),
    ("1100", "Current Assets", .ASSET, some "1000"),
    ("1110", "Cash and Bank Accounts", .ASSET, some "1100"),
    ("1120", "Accounts Receivable", .ASSET, some "1100"),
    ("1130", "Inventory", .ASSET, some "1100"),
    ("1140", "Prepaid Expenses", .ASSET, some "1100"),
    ("1200", "Fixed Assets", .ASSET, some "1000"),
    ("1210", "Equipment", .ASSET, some "1200"),
    ("1220", "Accumulated Depreciation - Equipment", .ASSET, some "1200"),
    ("2000", "LIABILITIES", .LIABILITY, none),
    ("2100", "Current Liabilities", .LIABILITY, some "2000"),
    ("2110", "Accounts Payable", .LIABILITY, some "2100"),
    ("2120", "Accrued Expenses", .LIABILITY, some "2100"),
    ("2130", "Short-term Debt", .LIABILITY, some "2100"),
    ("2200", "Long-term Liabilities", .LIABILITY, some "2000"),
    ("2210", "Long-term Debt", .LIABILITY, some "2200"),
    ("3000", "EQUITY", .EQUITY, none),
    ("3100", "Owner's Equity", .EQUITY, some "3000"),
    ("3200", "Retained Earnings", .EQUITY, some "3000"),
    ("4000", "REVENUE", .REVENUE, none),
    ("4100", "Sales Revenue", .REVENUE, some "4000"),
    ("4200", "Service Revenue", .REVENUE, some "4000"),
    ("4300", "Other Income", .REVENUE, some "4000"),
    ("5000", "EXPENSES", .EXPENSE, none),
    ("5100", "Cost of Goods Sold", .EXPENSE, some "5000"),
    ("5200", "Operating Expenses", .EXPENSE, some "5000"),
    ("5210", "Salaries and Wages", .EXPENSE, some "5200"),
    ("5220", "Rent Expense", .EXPENSE, some "5200"),
    ("5230", "Utilities Expense", .EXPENSE, some "5200"),
    ("5240", "Office Supplies", .EXPENSE, some "5200"),
    ("5250", "Depreciation Expense", .EXPENSE, some "5200") ]

def setup_chart_of_accounts (s : Store) : Store :=
  standardAccounts.foldl
    (fun st p => (create_account st p.1 p.2.1 p.2.2.1 p.2.2.2 "").2) s

/-- The store produced by `AccountingSystem.__init__` on a fresh database:
empty tables seeded with the standard chart of accounts. -/
def initStore : Store := setup_chart_of_accounts ⟨[], [], []⟩

/-- Result of `create_transaction`.  The source returns `bool`, raising (and
internally catching) `ValueError(f"Transaction not balanced: Debits {td} !=
Credits {tc}")` on imbalance and `sqlite3.IntegrityError` on a duplicate
primary key; the variants keep those two failure modes, and `unbalanced`
carries the two totals the error message reports. -/
inductive CreateResult where
  | success
  | unbalanced (debits credits : ℚ)
  | duplicateId
deriving DecidableEq

/-- Decimal-string rendering of a `Nat` (Python `str`/`format` on an `int`),
via base-10 digits, most significant first. -/
def digitChar : Nat → Char
  | 0 => '0'
  | 1 => '1'
  | 2 => '2'
  | 3 => '3'
  | 4 => '4'
  | 5 => '5'
  | 6 => '6'
  | 7 => '7'
  | 8 => '8'
  | 9 => '9'
  | _ => '*'

/-- Little-endian base-10 digits with explicit fuel (the fuel makes the
recursion structural so that the kernel can evaluate it; `n` itself is always
enough fuel). -/
def digitsRev : Nat → Nat → List Nat
  | 0, _ => []
  | f + 1, n => if n = 0 then [] else (n % 10) :: digitsRev f (n / 10)

def charsOf (n : Nat) : List Char :=
  if n = 0 then ['0'] else ((digitsRev n n).reverse.map digitChar)

def natToStr (n : Nat) : String := ⟨charsOf n⟩

/-- `f"{count:03d}"`: zero-pad to three digits, longer numbers unpadded. -/
def pad3 (c : Nat) : String :=
  if c < 10 then "00" ++ natToStr c
  else if c < 100 then "0" ++ natToStr c
  else natToStr c

/-- `f"TXN-{date_str}-{count:03d}"` in `generate_transaction_id`. -/
def mkTxnId (ds : String) (c : Nat) : String := "TXN-" ++ ds ++ "-" ++ pad3 c

/-- The `while True` retry loop of `generate_transaction_id`
(`accounting_system.py:216`), with explicit fuel.  The fuel only bounds the
number of membership tests; `generate_transaction_id` supplies one more unit
of fuel than there are transaction ids, which is shown below to be enough for
the loop to exit through its `break`. -/
def findFreeId (used : List String) (ds : String) : Nat → Nat → String
  | c, 0 => mkTxnId ds c
  | c, fuel + 1 =>
      if used.contains (mkTxnId ds c) then findFreeId used ds (c + 1) fuel
      else mkTxnId ds c

/-- `generate_transaction_id` (`accounting_system.py:198`): seq starts at
(count of transactions on the date) + 1 and increments until unused. -/
def generate_transaction_id (s : Store) (tdate : Nat) : String :=
  let ds := natToStr tdate
  let count := (s.transactions.filter (fun t => t.tdate == tdate)).length + 1
  findFreeId (idsOfTxns s) ds count (s.transactions.length + 1)

/-- `create_transaction` (`accounting_system.py:356`): validate
`sum(debits) == sum(credits)` with exact decimal equality before any write;
on imbalance raise/rollback with both totals and leave the store unchanged.
On success insert the transaction row and one entry row per input tuple with
entry id `f"{transaction_id}_{i+1}"`.  A duplicate transaction id makes the
`INSERT` raise `IntegrityError`, which is caught and rolled back.

Fidelity note: the source inserts `float(debit)`/`float(credit)` into `REAL`
columns (`accounting_system.py:386`), so the value the database actually
persists for an amount `q` is the binary64 double `rnd64 q`, not `q`.  This
model keeps the posted exact values; every consequence of the binary64
serialization (what the `REAL` columns hold and how SQL sums them) is
expressed through `rnd64`/`fsum`/`storedDebitSum`, and the claims that turn
on persisted-value exactness are settled against those. -/
def create_transaction (s : Store) (tid : String) (tdate : Nat) (descr : String)
    (entries : List EntryInput) (ref : String) : CreateResult × Store :=
  let td := sumDebits entries
  let tc := sumCredits entries
  if td ≠ tc then (.unbalanced td tc, s)
  else if s.transactions.any (fun t => t.id == tid) then (.duplicateId, s)
  else
    let txn : Txn := ⟨tid, tdate, descr, ref⟩
    let newEntries := entries.enum.map (fun p =>
      Entry.mk (tid ++ "_" ++ natToStr (p.1 + 1)) tid p.2.account_id p.2.debit p.2.credit p.2.description)
    (.success, { s with transactions := s.transactions ++ [txn],
                        entries := s.entries ++ newEntries })

/-- The date filter of `get_account_balance`: with an `as_of` date, the
`LEFT JOIN transactions` plus `WHERE date(t.date) <= date(?)` keeps an entry
only when its transaction row exists and its date is within bound (a NULL
date fails the comparison); without `as_of` every entry of the account is
summed. -/
def dateOk (s : Store) (asOf : Option Nat) (e : Entry) : Bool :=
  match asOf with
  | none => true
  | some d =>
      match s.transactions.find? (fun t => t.id == e.transaction_id) with
      | some t => decide (t.tdate ≤ d)
      | none => false

/-- The entry rows `get_account_balance` aggregates for one account. -/
def balanceEntries (s : Store) (aid : String) (asOf : Option Nat) : List Entry :=
  s.entries.filter (fun e => e.account_id == aid && dateOk s asOf e)

/-- `get_account_balance` (`accounting_system.py:396`): when the account row is
missing the query returns no row and the function falls back to
`Decimal('0')`; otherwise debits minus credits for debit-normal types and
credits minus debits for the rest.

Fidelity note: in the source the two totals are
`Decimal(str(COALESCE(SUM(te.debit_amount), 0)))` and likewise for credits
(`accounting_system.py:406-423`) — binary64 sums over the `REAL` columns,
read back through `str`.  Here the sums are taken over the exact posted
values; the binary64 sum the `REAL` column actually yields is modelled by
`storedDebitSum`, and the divergence between the two on reachable inputs is
proved below rather than assumed away. -/
def get_account_balance (s : Store) (aid : String) (asOf : Option Nat) : ℚ :=
  match s.accounts.find? (fun a => a.id == aid) with
  | none => 0
  | some a =>
      if debitNormal a.account_type then
        sumEntryDebits (balanceEntries s aid asOf) -
          sumEntryCredits (balanceEntries s aid asOf)
      else
        sumEntryCredits (balanceEntries s aid asOf) -
          sumEntryDebits (balanceEntries s aid asOf)

/-- The raw (polarity-free) balance of one account: the signed value of the
entry rows `get_account_balance` aggregates for it. -/
def rawBalance (s : Store) (aid : String) (asOf : Option Nat) : ℚ :=
  signedSum (balanceEntries s aid asOf)

/-- Accumulator of `generate_trial_balance`: rows built so far and the running
`total_debits` / `total_credits`. -/
structure TBAcc where
  rows : List (String × String × ℚ × ℚ)
  totalD : ℚ
  totalC : ℚ

/-- One iteration of the account loop of `generate_trial_balance`
(`accounting_system.py:442`): skip zero balances, place a positive balance in
its normal column, and show an abnormal (negative) balance as `abs(balance)`
in the opposite column. -/
def tbStep (s : Store) (asOf : Option Nat) (acc : TBAcc) (a : Account) : TBAcc :=
  if get_account_balance s a.id asOf ≠ 0 then
    if debitNormal a.account_type ∧ get_account_balance s a.id asOf > 0 then
      ⟨acc.rows ++ [(a.id, a.name, get_account_balance s a.id asOf, 0)],
        acc.totalD + get_account_balance s a.id asOf, acc.totalC⟩
    else if (¬ debitNormal a.account_type) ∧ get_account_balance s a.id asOf > 0 then
      ⟨acc.rows ++ [(a.id, a.name, 0, get_account_balance s a.id asOf)],
        acc.totalD, acc.totalC + get_account_balance s a.id asOf⟩
    else if get_account_balance s a.id asOf < 0 then
      if debitNormal a.account_type then
        ⟨acc.rows ++ [(a.id, a.name, 0, |get_account_balance s a.id asOf|)],
          acc.totalD, acc.totalC + |get_account_balance s a.id asOf|⟩
      else
        ⟨acc.rows ++ [(a.id, a.name, |get_account_balance s a.id asOf|, 0)],
          acc.totalD + |get_account_balance s a.id asOf|, acc.totalC⟩
    else acc
  else acc

/-- `generate_trial_balance` (`accounting_system.py:432`): one row per active
account with a nonzero balance, a trailing `("TOTAL", "TOTAL", total_debits,
total_credits)` row.  The SQL orders accounts by id; the seeded chart is
already in id order and the totals are order-independent, so the model keeps
the table's list order. -/
def generate_trial_balance (s : Store) (asOf : Option Nat) :
    List (String × String × ℚ × ℚ) :=
  ((s.accounts.filter (·.is_active)).foldl (tbStep s asOf) ⟨[], 0, 0⟩).rows ++
    [("TOTAL", "TOTAL",
      ((s.accounts.filter (·.is_active)).foldl (tbStep s asOf) ⟨[], 0, 0⟩).totalD,
      ((s.accounts.filter (·.is_active)).foldl (tbStep s asOf) ⟨[], 0, 0⟩).totalC)]

/-- A parsed `STMTTRN` record, as produced by `parse_ofx_file`: external id
(`FITID`), posted date (first 8 characters, `YYYYMMDD`), signed decimal
amount, payee name and memo.  Records whose date or amount fail to parse are
skipped by the import loop's `except` and are deterministic no-ops, so the
model takes the well-formed records. -/
structure OfxRecord where
  fitid : String
  rdate : Nat
  amount : ℚ
  nm : String
  memo : String
deriving DecidableEq

/-- Python's whitespace test for `str.strip()`, over the characters that can
occur in statement text. -/
def isSpaceChar (c : Char) : Bool :=
  c == ' ' || c == '\t' || c == '\n' || c == '\r'

/-- `str.strip()`: drop whitespace from both ends. -/
def pyStrip (s : String) : String :=
  ⟨((s.data.dropWhile isSpaceChar).reverse.dropWhile isSpaceChar).reverse⟩

/-- `f"{trn_data['name']} {trn_data['memo']}".strip()`. -/
def ofxDescription (r : OfxRecord) : String := pyStrip (r.nm ++ " " ++ r.memo)

/-- The 2-entry mapping of `import_ofx_transactions` (`accounting_system.py:620`):
positive amount → debit the cash account, credit `4300` (Other Income);
otherwise → debit `5240` (Office Supplies), credit the cash account, both by
`abs(amount)`. -/
def ofxEntries (cash : String) (amount : ℚ) (descr : String) : List EntryInput :=
  if amount > 0 then
    [⟨cash, amount, 0, descr⟩, ⟨"4300", 0, amount, descr⟩]
  else
    [⟨"5240", |amount|, 0, descr⟩, ⟨cash, 0, |amount|, descr⟩]

/-- One iteration of the import loop of `import_ofx_transactions`
(`accounting_system.py:602`): derive the transaction id `f"OFX_{fitid}"`, skip
it when a transaction with that id already exists, otherwise post the 2-entry
transaction; returns how many transactions were committed (0 or 1). -/
def importRecord (s : Store) (cash : String) (r : OfxRecord) : Nat × Store :=
  if s.transactions.any (fun t => t.id == ("OFX_" ++ r.fitid)) then (0, s)
  else
    match create_transaction s ("OFX_" ++ r.fitid) r.rdate (ofxDescription r)
        (ofxEntries cash r.amount (ofxDescription r)) r.fitid with
    | (.success, s2) => (1, s2)
    | (_, s2) => (0, s2)

/-- `import_ofx_transactions` (`accounting_system.py:594`) over the parsed
records of one statement document: fold the per-record step, accumulating the
imported count.  (The trailing `ofx_imports` audit row records a wall-clock
id, the file hash and the count; it is outside the ledger tables.) -/
def import_ofx_transactions (s : Store) (cash : String) :
    List OfxRecord → Nat × Store
  | [] => (0, s)
  | r :: rs =>
      ((importRecord s cash r).1 +
        (import_ofx_transactions (importRecord s cash r).2 cash rs).1,
       (import_ofx_transactions (importRecord s cash r).2 cash rs).2)

/-- One row of the export query of `export_to_ofx` (`accounting_system.py:666`):
transaction id, date and description joined with the entry's two amounts. -/
structure ExportRow where
  tid : String
  tdate : Nat
  description : String
  debit : ℚ
  credit : ℚ
deriving DecidableEq

/-- The rows `export_to_ofx` serializes for one account and date range: the
inner join of `transactions` and `transaction_entries` filtered to the
account and to `date BETWEEN start AND end`.  The SQL orders by date then id;
the claims below are per-row, so the model keeps the entry-table order. -/
def exportRows (s : Store) (aid : String) (startD endD : Nat) : List ExportRow :=
  s.entries.filterMap (fun e =>
    if e.account_id == aid then
      match s.transactions.find? (fun t => t.id == e.transaction_id) with
      | some t =>
          if startD ≤ t.tdate ∧ t.tdate ≤ endD then
            some ⟨t.id, t.tdate, t.description, e.debit_amount, e.credit_amount⟩
          else none
      | none => none
    else none)

/-- `amount = credit - debit if credit > debit else -(debit - credit)` in the
export loop (`accounting_system.py:726`): the signed `TRNAMT` written for an
entry. -/
def exportAmount (debit credit : ℚ) : ℚ :=
  if credit > debit then credit - debit else -(debit - credit)

/-- Re-derivation of a debit/credit pair from the sign of an exported amount:
a negative amount is a debit of its magnitude, a positive amount a credit of
its magnitude (inverting `exportAmount` on one-sided entries). -/
def rederive (a : ℚ) : ℚ × ℚ :=
  if a < 0 then (-a, 0) else if a > 0 then (0, a) else (0, 0)

/-- One output row of `get_account_transaction_history`. -/
structure HistRow where
  tid : String
  tdate : Nat
  description : String
  reference : String
  debit : ℚ
  credit : ℚ
  effect : ℚ
  running_balance : ℚ
  entry_description : String
deriving DecidableEq

/-- The join rows `get_account_transaction_history` iterates over. -/
structure HistJoinRow where
  tid : String
  tdate : Nat
  description : String
  reference : String
  debit : ℚ
  credit : ℚ
  entry_description : String
deriving DecidableEq

/-- `ORDER BY t.date ASC, t.id ASC` of `get_account_transaction_history`,
as a boolean comparison on the join rows (id comparison is lexicographic on
the string, matching SQLite text ordering). -/
def histLe (x y : HistJoinRow) : Bool :=
  decide (x.tdate < y.tdate) ||
    (x.tdate == y.tdate && !(decide (y.tid < x.tid)))

def insertSorted (le : HistJoinRow → HistJoinRow → Bool) (x : HistJoinRow) :
    List HistJoinRow → List HistJoinRow
  | [] => [x]
  | y :: ys => if le x y then x :: y :: ys else y :: insertSorted le x ys

def sortRows (le : HistJoinRow → HistJoinRow → Bool) :
    List HistJoinRow → List HistJoinRow
  | [] => []
  | x :: xs => insertSorted le x (sortRows le xs)

/-- `get_account_transaction_history` (`accounting_system.py:301`): look up the
account's type, returning `[]` when the account row is missing; otherwise
walk the account's entry rows in (date, id) order up to `limit`, accumulating
a running balance from zero with the account type's normal polarity. -/
def get_account_transaction_history (s : Store) (aid : String) (limit : Nat) :
    List HistRow :=
  match s.accounts.find? (fun a => a.id == aid) with
  | none => []
  | some a =>
      let joined := s.entries.filterMap (fun e =>
        if e.account_id == aid then
          match s.transactions.find? (fun t => t.id == e.transaction_id) with
          | some t => some (HistJoinRow.mk t.id t.tdate t.description t.reference
              e.debit_amount e.credit_amount e.description)
          | none => none
        else none)
      let rows := (sortRows histLe joined).take limit
      (rows.foldl (fun (acc : ℚ × List HistRow) row =>
        let effect := if debitNormal a.account_type then row.debit - row.credit
          else row.credit - row.debit
        let rb := acc.1 + effect
        (rb, acc.2 ++ [HistRow.mk row.tid row.tdate row.description row.reference
          row.debit row.credit effect rb row.entry_description])) (0, [])).2

/-- `delete_transaction` of the web layer (`accounting_web_ui.py:537`): delete
the entry rows of the id, then the transaction row, in one commit. -/
def delete_transaction (s : Store) (tid : String) : Store :=
  { s with entries := s.entries.filter (fun e => !(e.transaction_id == tid)),
           transactions := s.transactions.filter (fun t => !(t.id == tid)) }

/-- `edit_transaction` of the web layer (`accounting_web_ui.py:442`): reject an
unbalanced entry set before touching the store; otherwise delete the old
entry rows, update the transaction row in place and insert the new entry rows
with the same id scheme as `create_transaction`.  The re-inserted amounts
pass through the same `float(...)`/`REAL` serialization
(`accounting_web_ui.py:493`) modelled by `rnd64`, as for
`create_transaction`. -/
def edit_transaction (s : Store) (tid : String) (tdate : Nat) (descr : String)
    (ref : String) (entries : List EntryInput) : Bool × Store :=
  if sumDebits entries ≠ sumCredits entries then (false, s)
  else
    let newEntries := entries.enum.map (fun p =>
      Entry.mk (tid ++ "_" ++ natToStr (p.1 + 1)) tid p.2.account_id p.2.debit p.2.credit p.2.description)
    (true, { s with
      transactions := s.transactions.map (fun t =>
        if t.id == tid then { t with tdate := tdate, description := descr, reference := ref } else t),
      entries := s.entries.filter (fun e => !(e.transaction_id == tid)) ++ newEntries })

/-- `toggle_account` of the web layer (`accounting_web_ui.py:224`). -/
def toggle_account (s : Store) (aid : String) : Store :=
  { s with accounts := s.accounts.map (fun a =>
      if a.id == aid then { a with is_active := !a.is_active } else a) }

/-- `delete_account` of the web layer (`accounting_web_ui.py:202`): delete the
account row only when its current balance is zero; entry rows referencing it
are left in place. -/
def delete_account (s : Store) (aid : String) : Store :=
  if get_account_balance s aid none ≠ 0 then s
  else { s with accounts := s.accounts.filter (fun a => !(a.id == aid)) }

/-- `edit_account` of the web layer (`accounting_web_ui.py:143`): update the
metadata columns of the account row; the id is unchanged. -/
def edit_account (s : Store) (aid nm : String) (atype : AccountType)
    (parent : Option String) (descr : String) (active : Bool) : Store :=
  { s with accounts := s.accounts.map (fun a =>
      if a.id == aid then ⟨a.id, nm, atype, parent, descr, active⟩ else a) }

/-- Structural invariants every reachable ledger state satisfies: the two
primary keys are unique, every committed transaction's entry rows balance,
and every entry row belongs to an existing transaction row. -/
def StoreOk (s : Store) : Prop :=
  (s.accounts.map (·.id)).Nodup ∧
  (s.transactions.map (·.id)).Nodup ∧
  (∀ t ∈ s.transactions,
    sumEntryDebits (entriesOfTxn s t.id) = sumEntryCredits (entriesOfTxn s t.id)) ∧
  (∀ e ∈ s.entries, ∃ t ∈ s.transactions, t.id = e.transaction_id)

/-- Ledger states reachable through the engine's mutation paths: a fresh
seeded database, closed under the posting, replacing and deleting operations
of `accounting_system.py` and the ledger-mutating web routes.  (OFX import
posts through `create_transaction`, so import-reachable states are included
via that constructor.  `edit_transaction` is reached from an existing
transaction's edit page, hence the existence premise.) -/
inductive Reachable : Store → Prop where
  | init : Reachable initStore
  | step_create_account (s : Store) (aid nm : String) (atype : AccountType)
      (parent : Option String) (descr : String) :
      Reachable s → Reachable (create_account s aid nm atype parent descr).2
  | step_create_transaction (s : Store) (tid : String) (tdate : Nat)
      (descr : String) (entries : List EntryInput) (ref : String) :
      Reachable s → Reachable (create_transaction s tid tdate descr entries ref).2
  | step_delete_transaction (s : Store) (tid : String) :
      Reachable s → Reachable (delete_transaction s tid)
  | step_edit_transaction (s : Store) (tid : String) (tdate : Nat)
      (descr ref : String) (entries : List EntryInput) :
      s.transactions.any (fun t => t.id == tid) = true →
      Reachable s → Reachable (edit_transaction s tid tdate descr ref entries).2
  | step_toggle_account (s : Store) (aid : String) :
      Reachable s → Reachable (toggle_account s aid)
  | step_delete_account (s : Store) (aid : String) :
      Reachable s → Reachable (delete_account s aid)
  | step_edit_account (s : Store) (aid nm : String) (atype : AccountType)
      (parent : Option String) (descr : String) (active : Bool) :
      Reachable s → Reachable (edit_account s aid nm atype parent descr active)

/-- Round a rational to the nearest integer, ties to even. -/
def roundHalfEven (q : ℚ) : ℤ :=
  let f := ⌊q⌋
  let r := q - f
  if r < 1 / 2 then f
  else if r > 1 / 2 then f + 1
  else if f % 2 = 0 then f else f + 1

/-- Scale a positive rational up by powers of two until it reaches `2 ^ 52`,
tracking the binary exponent of the applied scale.  The fuel bounds the
number of doublings and is chosen far beyond the binary64 exponent range. -/
def shiftUp : Nat → ℚ → ℤ → ℚ × ℤ
  | 0, q, sh => (q, sh)
  | f + 1, q, sh =>
      if q < 4503599627370496 then shiftUp f (q * 2) (sh - 1) else (q, sh)

/-- Scale a rational down by powers of two until it is below `2 ^ 53`,
tracking the binary exponent of the applied scale. -/
def shiftDown : Nat → ℚ → ℤ → ℚ × ℤ
  | 0, q, sh => (q, sh)
  | f + 1, q, sh =>
      if 9007199254740992 ≤ q then shiftDown f (q / 2) (sh + 1) else (q, sh)

/-- The exact value of the IEEE-754 binary64 double nearest to a positive
rational (round to nearest, ties to even): the value is scaled into the
53-bit significand range `[2 ^ 52, 2 ^ 53)`, rounded to an integer
significand with ties to even, and scaled back.  Exponent overflow and
subnormals are outside the range of the money amounts analysed here and are
not modelled. -/
def rnd64Pos (q : ℚ) : ℚ :=
  let p := shiftUp 1400 q 0
  let r := shiftDown 1400 p.1 p.2
  (roundHalfEven r.1 : ℚ) * (2 : ℚ) ^ r.2

/-- The binary64 double produced by the `float(Decimal(...))` cast in
`create_transaction` and stored in the `REAL` columns of
`transaction_entries` (`accounting_system.py:113` and `:386`), as an exact
rational. -/
def rnd64 (q : ℚ) : ℚ :=
  if q = 0 then 0
  else if q > 0 then rnd64Pos q
  else -rnd64Pos (-q)

/-- SQLite's `SUM` over a `REAL` column: sequential binary64 additions, each
result rounded back to a double. -/
def fsum (l : List ℚ) : ℚ := l.foldl (fun acc x => rnd64 (acc + x)) 0

/-- The value the `REAL` debit column accumulates (via
`COALESCE(SUM(te.debit_amount), 0)` in `get_account_balance`) for a list of
posted `Decimal` debit amounts: each amount passes through `float(...)` on
insert and the doubles are then summed in floating point. -/
def storedDebitSum (posted : List ℚ) : ℚ := fsum (posted.map rnd64)

/-- Decimal digit-string evaluator, the left inverse used to reason about
`natToStr`/`pad3`: fold each digit character into an accumulator.  Leading
zeros do not change the value, so it also inverts the zero-padding of
`pad3`. -/
def parseNatChars (l : List Char) : Nat :=
  l.foldl (fun acc ch => acc * 10 + (ch.toNat - 48)) 0

/-- Recover the sequence number from a `TXN-<date>-<seq>` id produced by
`mkTxnId`: drop the fixed prefix and evaluate the digit suffix. -/
def parseTxnSeq (ds : String) (s : String) : Nat :=
  parseNatChars (s.data.drop ("TXN-" ++ ds ++ "-").data.length)

/-! ### Concrete stores used by witnesses and counterexamples -/

/-- Scenario A of the spec: post `(1110, debit 10000), (3100, credit 10000)`
dated 2024-01-15 on a fresh store. -/
def scenarioAStore : Store :=
  (create_transaction initStore "TXN-20240115-001" 20240115 "opening"
    [⟨"1110", 10000, 0, "cash"⟩, ⟨"3100", 0, 10000, "equity"⟩] "").2

/-- Scenario B entry set of the spec: `(1110, debit 100), (4100, credit 99)`. -/
def scenarioB : List EntryInput := [⟨"1110", 100, 0, ""⟩, ⟨"4100", 0, 99, ""⟩]

/-- A fresh store after posting two balanced transactions whose cash legs are
the decimals `0.10` and `0.20`: the store Scenario-style failing input for
the floating-point storage analysis. -/
def c2Store : Store :=
  (create_transaction
    ((create_transaction initStore "T1" 20240110 "a"
      [⟨"1110", 1/10, 0, ""⟩, ⟨"4300", 0, 1/10, ""⟩] "").2)
    "T2" 20240111 "b"
    [⟨"1110", 2/10, 0, ""⟩, ⟨"4300", 0, 2/10, ""⟩] "").2

/-- A fresh store after posting `(1110 debit 0.10, 2110 credit 0.10)` and
`(1110 debit 0.20, 2120 credit 0.20)`: every entry references an existing,
active seeded account, and both transactions balance exactly — the failing
input on which the real program's trial-balance totals disagree because of
the `REAL` serialization. -/
def c3fStore : Store :=
  (create_transaction
    ((create_transaction initStore "T1" 20240110 "a"
      [⟨"1110", 1/10, 0, ""⟩, ⟨"2110", 0, 1/10, ""⟩] "").2)
    "T2" 20240111 "b"
    [⟨"1110", 2/10, 0, ""⟩, ⟨"2120", 0, 2/10, ""⟩] "").2

/-- A balanced single posting one of whose entries carries both a nonzero
debit and a nonzero credit (the data model permits this and the posting
validation accepts it, since 5 = 3 + 2). -/
def bothSidesStore : Store :=
  (create_transaction initStore "T1" 20240115 "memo"
    [⟨"1110", 5, 3, ""⟩, ⟨"4100", 0, 2, ""⟩] "").2

/-- A balanced transaction one of whose entries references the account id
`9999`, which has no row in `accounts`. -/
def danglingStore : Store :=
  (create_transaction initStore "T1" 20240115 "dangling"
    [⟨"1110", 100, 0, ""⟩, ⟨"9999", 0, 100, ""⟩] "").2

/-! ### Claim C1 -/

/-- Claim C1: a `create_transaction` call whose entries have unequal debit and
credit totals (exact decimal comparison) fails, reporting both totals, and
leaves the store unchanged — no transaction row and no entry rows are
written. -/
theorem create_transaction_unbalanced_rejected (s : Store) (tid : String)
    (tdate : Nat) (descr : String) (entries : List EntryInput) (ref : String)
    (h : sumDebits entries ≠ sumCredits entries) :
    create_transaction s tid tdate descr entries ref =
      (CreateResult.unbalanced (sumDebits entries) (sumCredits entries), s) := by
  unfold create_transaction
  simp only [if_pos h]

/-- Scenario B instantiation of claim C1: posting `(1110, debit 100),
(4100, credit 99)` on a fresh store fails with the totals 100 and 99 and the
store is unchanged. -/
theorem create_transaction_unbalanced_rejected_witness :
    sumDebits scenarioB ≠ sumCredits scenarioB ∧
    create_transaction initStore "TXN-20240115-001" 20240115 "unbalanced" scenarioB "" =
      (CreateResult.unbalanced 100 99, initStore) := by
  refine ⟨by decide, ?_⟩
  have h := create_transaction_unbalanced_rejected initStore "TXN-20240115-001"
    20240115 "unbalanced" scenarioB "" (by decide)
  exact h.trans (by decide)

/-! ### Claim C5 -/

/-- Claim C5 counterexample: `get_account_balance` on the missing account id
`9999` does not fail with a `NotFound` error — the function returns the plain
value `Decimal('0')`, the same value it returns for the existing account
`1110` that has a zero balance, so a missing account is indistinguishable
from a zero balance. -/
theorem accountBalance_missing_returns_zero_counterexample :
    initStore.accounts.find? (fun a => a.id == "9999") = none ∧
    get_account_balance initStore "9999" none = 0 ∧
    initStore.accounts.any (fun a => a.id == "1110") = true ∧
    get_account_balance initStore "1110" none = 0 := by
  refine ⟨by decide, by decide, by decide, by decide⟩

/-- Claim C5 as amended: for every account id with no row in `accounts`,
`get_account_balance` returns `Decimal('0')` — a lenient sentinel value, not
a typed `NotFound` failure. -/
theorem get_account_balance_missing_zero (s : Store) (aid : String)
    (asOf : Option Nat)
    (h : s.accounts.find? (fun a => a.id == aid) = none) :
    get_account_balance s aid asOf = 0 := by
  unfold get_account_balance
  rw [h]

/-- Witness for the amended claim C5 at the concrete missing id `9999`. -/
theorem get_account_balance_missing_zero_witness :
    initStore.accounts.find? (fun a => a.id == "9999") = none ∧
    get_account_balance initStore "9999" none = 0 :=
  ⟨by decide, get_account_balance_missing_zero initStore "9999" none (by decide)⟩

/-! ### Claim C10 -/

/-- Claim C10: `get_account_transaction_history` on an account id with no row
in `accounts` returns the empty list rather than failing, regardless of
whether entry rows referencing that id exist. -/
theorem history_missing_account_empty (s : Store) (aid : String) (limit : Nat)
    (h : s.accounts.find? (fun a => a.id == aid) = none) :
    get_account_transaction_history s aid limit = [] := by
  unfold get_account_transaction_history
  rw [h]

/-- Witness for claim C10: the id `9999` has no account row in
`danglingStore` even though an entry referencing it exists, and its history
is the empty list. -/
theorem history_missing_account_empty_witness :
    danglingStore.accounts.find? (fun a => a.id == "9999") = none ∧
    danglingStore.entries.any (fun e => e.account_id == "9999") = true ∧
    get_account_transaction_history danglingStore "9999" 100 = [] :=
  ⟨by decide, by decide,
    history_missing_account_empty danglingStore "9999" 100 (by decide)⟩

/-! ### Claim C2 -/

/-- Claim C2 (code-bug exhibit): money amounts are not persisted exactly.
`setup_database` declares `debit_amount REAL` / `credit_amount REAL` and
`create_transaction` inserts `float(debit)`, `float(credit)`, so each posted
`Decimal` is stored as the binary64 value `rnd64` of it, and
`get_account_balance` reads back `Decimal(str(SUM(...)))` of the
floating-point sum.  After posting cash debits `0.10` and `0.20` (each in a
balanced transaction), the stored sum `storedDebitSum [1/10, 2/10]` differs
both from the exact total `0.30` and from `rnd64 0.30`; since CPython's
`str` on a float is the shortest decimal that rounds back to the same
double, any decimal string whose value were `0.30` would denote the double
`rnd64 0.30`, so the read-back balance cannot equal the posted total `0.30`
(it is `Decimal('0.30000000000000004')`).  The exact-decimal model of the
same ledger state — the behaviour the claim asserts — gives exactly `3/10`. -/
theorem real_storage_not_exact_decimal :
    get_account_balance c2Store "1110" none = 3 / 10 ∧
    storedDebitSum [1 / 10, 2 / 10] ≠ 3 / 10 ∧
    storedDebitSum [1 / 10, 2 / 10] ≠ rnd64 (3 / 10) := by
  refine ⟨by decide, by decide, by decide⟩

/-! ### Claim C6 -/

theorem digitChar_toNat (d : Nat) (h : d < 10) : (digitChar d).toNat - 48 = d := by
  interval_cases d <;> rfl

theorem digitsRev_eq_digits : ∀ (f n : Nat), n ≤ f → digitsRev f n = Nat.digits 10 n := by
  intro f
  induction f with
  | zero =>
      intro n hn
      have h0 : n = 0 := Nat.le_zero.mp hn
      subst h0
      simp [digitsRev]
  | succ f ih =>
      intro n hn
      by_cases h0 : n = 0
      · subst h0
        simp [digitsRev]
      · rw [digitsRev, if_neg h0]
        rw [ih (n / 10) (by omega)]
        rw [Nat.digits_def' (by norm_num : 1 < 10) (Nat.pos_of_ne_zero h0)]

theorem charsOf_eq (n : Nat) :
    charsOf n = if n = 0 then ['0']
      else ((Nat.digits 10 n).reverse.map digitChar) := by
  unfold charsOf
  by_cases h0 : n = 0
  · rw [if_pos h0, if_pos h0]
  · rw [if_neg h0, if_neg h0, digitsRev_eq_digits n n (Nat.le_refl n)]

theorem parseNatChars_charsOf (n : Nat) : parseNatChars (charsOf n) = n := by
  induction n using Nat.strong_induction_on with
  | _ n ih =>
    by_cases h0 : n = 0
    · subst h0; rfl
    · have hpos : 0 < n := Nat.pos_of_ne_zero h0
      rw [charsOf_eq, if_neg h0, Nat.digits_def' (by norm_num : 1 < 10) hpos,
        List.reverse_cons, List.map_append]
      rw [parseNatChars, List.foldl_append]
      by_cases h10 : n / 10 = 0
      · rw [h10, Nat.digits_zero]
        simp only [List.reverse_nil, List.map_nil, List.foldl_nil, List.foldl_cons]
        have h1 : n % 10 = n := by omega
        have h2 := digitChar_toNat (n % 10) (by omega)
        simp only [List.map_cons, List.map_nil, List.foldl_cons, List.foldl_nil]
        omega
      · have hlt : n / 10 < n := Nat.div_lt_self hpos (by norm_num)
        have hih := ih (n / 10) hlt
        rw [charsOf_eq, if_neg h10] at hih
        rw [parseNatChars] at hih
        rw [hih]
        simp only [List.map_cons, List.map_nil, List.foldl_cons, List.foldl_nil]
        have h2 := digitChar_toNat (n % 10) (by omega)
        omega

theorem string_data_append (a b : String) : (a ++ b).data = a.data ++ b.data := rfl

theorem parseNatChars_pad3 (c : Nat) : parseNatChars (pad3 c).data = c := by
  rw [pad3]
  by_cases h1 : c < 10
  · rw [if_pos h1]
    rw [string_data_append]
    have : ("00" : String).data = [Char.ofNat 48, Char.ofNat 48] := rfl
    rw [this, parseNatChars, List.foldl_append]
    have hz : List.foldl (fun acc ch => acc * 10 + (ch.toNat - 48)) 0
        [Char.ofNat 48, Char.ofNat 48] = 0 := rfl
    rw [hz]
    exact parseNatChars_charsOf c
  · rw [if_neg h1]
    by_cases h2 : c < 100
    · rw [if_pos h2]
      rw [string_data_append]
      have : ("0" : String).data = [Char.ofNat 48] := rfl
      rw [this, parseNatChars, List.foldl_append]
      have hz : List.foldl (fun acc ch => acc * 10 + (ch.toNat - 48)) 0
          [Char.ofNat 48] = 0 := rfl
      rw [hz]
      exact parseNatChars_charsOf c
    · rw [if_neg h2]
      exact parseNatChars_charsOf c

theorem parseTxnSeq_mkTxnId (ds : String) (c : Nat) :
    parseTxnSeq ds (mkTxnId ds c) = c := by
  rw [parseTxnSeq, mkTxnId]
  have h : ("TXN-" ++ ds ++ "-" ++ pad3 c).data =
      ("TXN-" ++ ds ++ "-").data ++ (pad3 c).data := rfl
  rw [h, List.drop_left]
  exact parseNatChars_pad3 c

theorem mkTxnId_inj (ds : String) : Function.Injective (fun c => mkTxnId ds c) := by
  intro a b h
  have := congrArg (parseTxnSeq ds) h
  simpa [parseTxnSeq_mkTxnId] using this

theorem findFreeId_spec (used : List String) (ds : String) (fuel : Nat) :
    ∀ c : Nat, (∃ i, i ≤ fuel ∧ mkTxnId ds (c + i) ∉ used) →
    ∃ seq, c ≤ seq ∧ findFreeId used ds c fuel = mkTxnId ds seq ∧
      mkTxnId ds seq ∉ used ∧
      ∀ k, c ≤ k → k < seq → mkTxnId ds k ∈ used := by
  induction fuel with
  | zero =>
      intro c h
      obtain ⟨i, hi, hfree⟩ := h
      have hi0 : i = 0 := Nat.le_zero.mp hi
      subst hi0
      refine ⟨c, Nat.le_refl c, rfl, by simpa using hfree, ?_⟩
      intro k hk1 hk2
      omega
  | succ f ih =>
      intro c h
      obtain ⟨i, hi, hfree⟩ := h
      by_cases hmem : used.contains (mkTxnId ds c)
      · have hc : mkTxnId ds c ∈ used := List.mem_of_elem_eq_true hmem
        have hnext : ∃ j, j ≤ f ∧ mkTxnId ds (c + 1 + j) ∉ used := by
          match i, hi, hfree with
          | 0, _, hfree => exact absurd (by simpa using hc) (by simpa using hfree)
          | j + 1, hj, hfree =>
              refine ⟨j, by omega, ?_⟩
              have : c + 1 + j = c + (j + 1) := by omega
              rw [this]
              exact hfree
        obtain ⟨seq, h1, h2, h3, h4⟩ := ih (c + 1) hnext
        refine ⟨seq, by omega, ?_, h3, ?_⟩
        · rw [findFreeId, if_pos hmem]
          exact h2
        · intro k hk1 hk2
          by_cases hkc : k = c
          · subst hkc; exact hc
          · exact h4 k (by omega) hk2
      · refine ⟨c, Nat.le_refl c, ?_, ?_, ?_⟩
        · rw [findFreeId, if_neg hmem]
        · intro habs
          exact hmem (List.elem_eq_true_of_mem habs)
        · intro k hk1 hk2
          omega

theorem mkTxnId_free_exists (used : List String) (ds : String) (c0 : Nat) :
    ∃ i, i ≤ used.length ∧ mkTxnId ds (c0 + i) ∉ used := by
  by_contra hcon
  push_neg at hcon
  have hall : ∀ i, i ≤ used.length → mkTxnId ds (c0 + i) ∈ used := hcon
  have hnd : ((List.range (used.length + 1)).map
      (fun i => mkTxnId ds (c0 + i))).Nodup := by
    refine List.Nodup.map ?_ (List.nodup_range _)
    intro a b hab
    have := congrArg (parseTxnSeq ds) hab
    simp only [parseTxnSeq_mkTxnId] at this
    omega
  have hsub : ((List.range (used.length + 1)).map
      (fun i => mkTxnId ds (c0 + i))) ⊆ used := by
    intro x hx
    simp only [List.mem_map, List.mem_range] at hx
    obtain ⟨i, hi, rfl⟩ := hx
    exact hall i (by omega)
  have hlen := (List.subperm_of_subset hnd hsub).length_le
  simp only [List.length_map, List.length_range] at hlen
  omega

/-- Claim C6: `generate_transaction_id` returns an id of the form
`TXN-<YYYYMMDD>-<seq>` that is not already present among the existing
transaction ids; the sequence number starts at (count of existing
transactions on that date) + 1 and increments until an unused id is found —
every lower candidate from the starting count is an existing id. -/
theorem generate_transaction_id_fresh (s : Store) (tdate : Nat) :
    ∃ seq,
      (s.transactions.filter (fun t => t.tdate == tdate)).length + 1 ≤ seq ∧
      generate_transaction_id s tdate = mkTxnId (natToStr tdate) seq ∧
      generate_transaction_id s tdate ∉ idsOfTxns s ∧
      ∀ k, (s.transactions.filter (fun t => t.tdate == tdate)).length + 1 ≤ k →
        k < seq → mkTxnId (natToStr tdate) k ∈ idsOfTxns s := by
  have hlen : (idsOfTxns s).length = s.transactions.length := by
    simp [idsOfTxns]
  obtain ⟨i, hi, hfree⟩ := mkTxnId_free_exists (idsOfTxns s) (natToStr tdate)
    ((s.transactions.filter (fun t => t.tdate == tdate)).length + 1)
  obtain ⟨seq, h1, h2, h3, h4⟩ := findFreeId_spec (idsOfTxns s) (natToStr tdate)
    (s.transactions.length + 1)
    ((s.transactions.filter (fun t => t.tdate == tdate)).length + 1)
    ⟨i, by omega, hfree⟩
  refine ⟨seq, h1, ?_, ?_, h4⟩
  · rw [generate_transaction_id]
    exact h2
  · rw [generate_transaction_id]
    rw [h2]
    exact h3

/-! ### Claim C7 -/

theorem ofxEntries_balanced (cash : String) (a : ℚ) (d : String) :
    sumDebits (ofxEntries cash a d) = sumCredits (ofxEntries cash a d) := by
  unfold ofxEntries sumDebits sumCredits
  split <;> simp

theorem any_txn_id_iff (s : Store) (tid : String) :
    (s.transactions.any (fun t => t.id == tid) = true) ↔ tid ∈ idsOfTxns s := by
  constructor
  · intro hx
    obtain ⟨t, ht, hbeq⟩ := List.any_eq_true.mp hx
    exact (beq_iff_eq.mp hbeq) ▸ List.mem_map_of_mem (fun t => t.id) ht
  · intro hx
    obtain ⟨t, ht, hid⟩ := List.mem_map.mp hx
    exact List.any_eq_true.mpr ⟨t, ht, beq_iff_eq.mpr hid⟩

theorem create_transaction_success_shape (s : Store) (tid : String) (tdate : Nat)
    (descr : String) (entries : List EntryInput) (ref : String)
    (hbal : sumDebits entries = sumCredits entries)
    (hfresh : s.transactions.any (fun t => t.id == tid) = false) :
    create_transaction s tid tdate descr entries ref =
      (CreateResult.success,
        { s with
          transactions := s.transactions ++ [⟨tid, tdate, descr, ref⟩],
          entries := s.entries ++ entries.enum.map (fun p =>
            Entry.mk (tid ++ "_" ++ natToStr (p.1 + 1)) tid p.2.account_id
              p.2.debit p.2.credit p.2.description) }) := by
  unfold create_transaction
  rw [if_neg (by simp [hbal])]
  simp [hfresh]

theorem importRecord_mem (s : Store) (cash : String) (r : OfxRecord) :
    ("OFX_" ++ r.fitid) ∈ idsOfTxns (importRecord s cash r).2 := by
  unfold importRecord
  by_cases hskip : s.transactions.any (fun t => t.id == ("OFX_" ++ r.fitid)) = true
  · rw [if_pos hskip]
    exact (any_txn_id_iff s ("OFX_" ++ r.fitid)).mp hskip
  · have hfresh : s.transactions.any (fun t => t.id == ("OFX_" ++ r.fitid)) = false := by
      simpa using hskip
    rw [if_neg (by simp [hfresh])]
    rw [create_transaction_success_shape s ("OFX_" ++ r.fitid) r.rdate
      (ofxDescription r) (ofxEntries cash r.amount (ofxDescription r)) r.fitid
      (ofxEntries_balanced cash r.amount (ofxDescription r)) hfresh]
    simp [idsOfTxns]

theorem importRecord_mono (s : Store) (cash : String) (r : OfxRecord) (x : String)
    (hx : x ∈ idsOfTxns s) : x ∈ idsOfTxns (importRecord s cash r).2 := by
  unfold importRecord
  by_cases hskip : s.transactions.any (fun t => t.id == ("OFX_" ++ r.fitid)) = true
  · rw [if_pos hskip]
    exact hx
  · have hfresh : s.transactions.any (fun t => t.id == ("OFX_" ++ r.fitid)) = false := by
      simpa using hskip
    rw [if_neg (by simp [hfresh])]
    rw [create_transaction_success_shape s ("OFX_" ++ r.fitid) r.rdate
      (ofxDescription r) (ofxEntries cash r.amount (ofxDescription r)) r.fitid
      (ofxEntries_balanced cash r.amount (ofxDescription r)) hfresh]
    simp only [idsOfTxns, List.map_append, List.mem_append]
    exact Or.inl hx

theorem import_mono (cash : String) (recs : List OfxRecord) :
    ∀ (s : Store) (x : String), x ∈ idsOfTxns s →
      x ∈ idsOfTxns (import_ofx_transactions s cash recs).2 := by
  induction recs with
  | nil => intro s x hx; exact hx
  | cons r0 rs ih =>
      intro s x hx
      simp only [import_ofx_transactions]
      exact ih (importRecord s cash r0).2 x (importRecord_mono s cash r0 x hx)

theorem import_all_mem (cash : String) (recs : List OfxRecord) :
    ∀ (s : Store) (r : OfxRecord), r ∈ recs →
      ("OFX_" ++ r.fitid) ∈ idsOfTxns (import_ofx_transactions s cash recs).2 := by
  induction recs with
  | nil => intro s r hr; exact absurd hr (List.not_mem_nil r)
  | cons r0 rs ih =>
      intro s r hr
      simp only [import_ofx_transactions]
      rcases List.mem_cons.mp hr with h | h
      · subst h
        exact import_mono cash rs (importRecord s cash r).2 ("OFX_" ++ r.fitid)
          (importRecord_mem s cash r)
      · exact ih (importRecord s cash r0).2 r h

theorem import_skip_all (cash : String) (recs : List OfxRecord) :
    ∀ s : Store, (∀ r ∈ recs, ("OFX_" ++ r.fitid) ∈ idsOfTxns s) →
      import_ofx_transactions s cash recs = (0, s) := by
  induction recs with
  | nil => intro s _; rfl
  | cons r0 rs ih =>
      intro s h
      have h0 : importRecord s cash r0 = (0, s) := by
        unfold importRecord
        rw [if_pos ((any_txn_id_iff s ("OFX_" ++ r0.fitid)).mpr
          (h r0 (List.mem_cons_self r0 rs)))]
      simp only [import_ofx_transactions, h0]
      rw [ih s (fun r hr => h r (List.mem_cons_of_mem r0 hr))]
      rfl

/-- Claim C7: importing the same parsed statement document twice yields the same
ledger state as importing it once — each record's transaction id is the
deterministic `OFX_` prefix of its external id, records whose derived id
already exists are skipped, and the second import commits 0 transactions and
leaves the store exactly as after the first import. -/
theorem import_ofx_idempotent (s : Store) (cash : String) (recs : List OfxRecord) :
    import_ofx_transactions (import_ofx_transactions s cash recs).2 cash recs =
      (0, (import_ofx_transactions s cash recs).2) :=
  import_skip_all cash recs (import_ofx_transactions s cash recs).2
    (fun r hr => import_all_mem cash recs s r hr)

/-! ### Claim C8 -/

/-- Claim C8: a parsed statement record with signed amount `a`, imported
against cash account `C` when its derived id is not yet present, posts a
2-entry balanced transaction: for `a > 0` it debits `C` by `a` and credits
the default other-income account `4300` by `a`; for `a < 0` it debits the
default expense account `5240` by `|a|` and credits `C` by `|a|`. -/
theorem import_maps_signed_amount (s : Store) (cash : String) (r : OfxRecord)
    (hfresh : s.transactions.any (fun t => t.id == ("OFX_" ++ r.fitid)) = false) :
    sumDebits (ofxEntries cash r.amount (ofxDescription r)) =
      sumCredits (ofxEntries cash r.amount (ofxDescription r)) ∧
    (0 < r.amount →
      importRecord s cash r = (1,
        { s with
          transactions := s.transactions ++
            [⟨"OFX_" ++ r.fitid, r.rdate, ofxDescription r, r.fitid⟩],
          entries := s.entries ++
            [Entry.mk (("OFX_" ++ r.fitid) ++ "_" ++ natToStr 1) ("OFX_" ++ r.fitid)
              cash r.amount 0 (ofxDescription r),
             Entry.mk (("OFX_" ++ r.fitid) ++ "_" ++ natToStr 2) ("OFX_" ++ r.fitid)
              "4300" 0 r.amount (ofxDescription r)] })) ∧
    (r.amount < 0 →
      importRecord s cash r = (1,
        { s with
          transactions := s.transactions ++
            [⟨"OFX_" ++ r.fitid, r.rdate, ofxDescription r, r.fitid⟩],
          entries := s.entries ++
            [Entry.mk (("OFX_" ++ r.fitid) ++ "_" ++ natToStr 1) ("OFX_" ++ r.fitid)
              "5240" |r.amount| 0 (ofxDescription r),
             Entry.mk (("OFX_" ++ r.fitid) ++ "_" ++ natToStr 2) ("OFX_" ++ r.fitid)
              cash 0 |r.amount| (ofxDescription r)] })) := by
  refine ⟨ofxEntries_balanced cash r.amount (ofxDescription r), ?_, ?_⟩
  · intro hpos
    have hofx : ofxEntries cash r.amount (ofxDescription r) =
        [⟨cash, r.amount, 0, ofxDescription r⟩,
         ⟨"4300", 0, r.amount, ofxDescription r⟩] := by
      unfold ofxEntries
      rw [if_pos hpos]
    unfold importRecord
    rw [if_neg (by simp [hfresh])]
    rw [hofx]
    rw [create_transaction_success_shape s ("OFX_" ++ r.fitid) r.rdate
      (ofxDescription r)
      [⟨cash, r.amount, 0, ofxDescription r⟩, ⟨"4300", 0, r.amount, ofxDescription r⟩]
      r.fitid (by simp [sumDebits, sumCredits]) hfresh]
    simp [List.enum, List.enumFrom]
  · intro hneg
    have hofx : ofxEntries cash r.amount (ofxDescription r) =
        [⟨"5240", |r.amount|, 0, ofxDescription r⟩,
         ⟨cash, 0, |r.amount|, ofxDescription r⟩] := by
      unfold ofxEntries
      rw [if_neg (by linarith)]
    unfold importRecord
    rw [if_neg (by simp [hfresh])]
    rw [hofx]
    rw [create_transaction_success_shape s ("OFX_" ++ r.fitid) r.rdate
      (ofxDescription r)
      [⟨"5240", |r.amount|, 0, ofxDescription r⟩, ⟨cash, 0, |r.amount|, ofxDescription r⟩]
      r.fitid (by simp [sumDebits, sumCredits]) hfresh]
    simp [List.enum, List.enumFrom]

/-- Scenario C instantiation of claim C8: importing one record of amount
`-150.00` against cash account `1110` on a fresh store posts a 2-entry
transaction debiting `5240` by 150.00 and crediting `1110` by 150.00. -/
theorem import_maps_signed_amount_witness :
    (initStore.transactions.any (fun t => t.id == ("OFX_" ++ "F1")) = false) ∧
    ((-150 : ℚ) < 0) ∧
    importRecord initStore "1110" ⟨"F1", 20240110, -150, "STORE", ""⟩ =
      (1, { initStore with
            transactions := initStore.transactions ++
              [⟨"OFX_F1", 20240110, "STORE", "F1"⟩],
            entries := initStore.entries ++
              [⟨"OFX_F1_1", "OFX_F1", "5240", 150, 0, "STORE"⟩,
               ⟨"OFX_F1_2", "OFX_F1", "1110", 0, 150, "STORE"⟩] }) := by
  refine ⟨by decide, by norm_num, ?_⟩
  have h := (import_maps_signed_amount initStore "1110"
    ⟨"F1", 20240110, -150, "STORE", ""⟩ (by decide)).2.2 (by norm_num)
  exact h.trans (by decide)

/-! ### Claim C9 -/

/-- Claim C9 counterexample: the data model permits (and `create_transaction`
accepts, in a balanced posting reachable from a fresh store) an entry with
both a nonzero debit and a nonzero credit; for the entry `(debit 5, credit
3)` on account `1110` the exported signed amount is `-(5 - 3) = -2`, and
re-deriving debit/credit from its sign gives `(2, 0)`, which does not
reproduce the entry's original amounts `(5, 3)`. -/
theorem export_rederive_counterexample :
    Reachable bothSidesStore ∧
    exportRows bothSidesStore "1110" 20240101 20241231 =
      [⟨"T1", 20240115, "memo", 5, 3⟩] ∧
    exportAmount 5 3 = -2 ∧
    rederive (exportAmount 5 3) = (2, 0) ∧
    ((2 : ℚ), (0 : ℚ)) ≠ ((5 : ℚ), (3 : ℚ)) := by
  refine ⟨?_, by decide, by decide, by decide, by decide⟩
  exact Reachable.step_create_transaction initStore "T1" 20240115 "memo"
    [⟨"1110", 5, 3, ""⟩, ⟨"4100", 0, 2, ""⟩] "" Reachable.init

/-- Claim C9 as amended: for every entry row in the export range the exported
signed amount equals `credit − debit` (computed as `credit − debit` when
credit is larger, else `−(debit − credit)`), and for entries with
non-negative amounts at most one of which is nonzero — the conventional
form, the only form the sign can encode — re-deriving debit/credit from the
sign of the exported amount reproduces the entry's original amounts for that
account's leg. -/
theorem export_amount_signed (s : Store) (aid : String) (startD endD : Nat)
    (row : ExportRow) (hrow : row ∈ exportRows s aid startD endD)
    (h0d : 0 ≤ row.debit) (h0c : 0 ≤ row.credit) :
    exportAmount row.debit row.credit = row.credit - row.debit ∧
    ((row.debit = 0 ∨ row.credit = 0) →
      rederive (exportAmount row.debit row.credit) = (row.debit, row.credit)) := by
  constructor
  · unfold exportAmount
    split <;> ring
  · intro h1
    rcases h1 with h | h
    · have ha : exportAmount row.debit row.credit = row.credit := by
        unfold exportAmount
        rw [h]
        split <;> ring
      rw [ha, h]
      unfold rederive
      rw [if_neg (not_lt.mpr h0c)]
      by_cases hpos : row.credit > 0
      · rw [if_pos hpos]
      · rw [if_neg hpos]
        rw [le_antisymm (not_lt.mp hpos) h0c]
    · have ha : exportAmount row.debit row.credit = -row.debit := by
        unfold exportAmount
        rw [h]
        rw [if_neg (not_lt.mpr h0d)]
        ring
      rw [ha, h]
      unfold rederive
      by_cases hpos : 0 < row.debit
      · rw [if_pos (by linarith)]
        norm_num
      · have hz : row.debit = 0 := le_antisymm (not_lt.mp hpos) h0d
        rw [hz]
        norm_num

/-- Witness for the amended claim C9 on the Scenario A posting: the cash leg
`(debit 10000, credit 0)` of account `1110` exports as `-10000` and
re-derives back to `(10000, 0)`. -/
theorem export_amount_signed_witness :
    (⟨"TXN-20240115-001", 20240115, "opening", 10000, 0⟩ : ExportRow) ∈
      exportRows scenarioAStore "1110" 20240101 20241231 ∧
    exportAmount 10000 0 = 0 - 10000 ∧
    rederive (exportAmount 10000 0) = (10000, 0) := by
  have h := export_amount_signed scenarioAStore "1110" 20240101 20241231
    ⟨"TXN-20240115-001", 20240115, "opening", 10000, 0⟩ (by decide)
    (by norm_num) (by norm_num)
  exact ⟨by decide, h.1, h.2 (Or.inr rfl)⟩

/-! ### Claim C4 -/

theorem sumEntry_sub (es : List Entry) :
    sumEntryDebits es - sumEntryCredits es = signedSum es := by
  unfold sumEntryDebits sumEntryCredits signedSum
  induction es with
  | nil => simp
  | cons e t ih =>
      simp only [List.map_cons, List.sum_cons]
      linarith [ih]

theorem debitNormal_iff (t : AccountType) :
    debitNormal t = true ↔ (t = .ASSET ∨ t = .EXPENSE) := by
  cases t <;> simp [debitNormal]

/-- Exact-decimal idealization of the §3 balance formula: over the values the
model keeps (the posted decimals, not the binary64 doubles the `REAL`
columns persist), `get_account_balance` of an account of type `T` equals the
signed sum `Σ (debit − credit)` of the aggregated entries when `T` is Asset
or Expense, and its negation otherwise.  This isolates the polarity and
aggregation logic; the deviation of the persisted values from the posted
ones is treated separately below. -/
theorem get_account_balance_polarity (s : Store) (aid : String) (a : Account)
    (asOf : Option Nat)
    (h : s.accounts.find? (fun x => x.id == aid) = some a) :
    get_account_balance s aid asOf =
      if a.account_type = .ASSET ∨ a.account_type = .EXPENSE then
        signedSum (balanceEntries s aid asOf)
      else -signedSum (balanceEntries s aid asOf) := by
  have hh : get_account_balance s aid asOf =
      (if debitNormal a.account_type then
        sumEntryDebits (balanceEntries s aid asOf) -
          sumEntryCredits (balanceEntries s aid asOf)
      else
        sumEntryCredits (balanceEntries s aid asOf) -
          sumEntryDebits (balanceEntries s aid asOf)) := by
    unfold get_account_balance
    rw [h]
  rw [hh]
  by_cases hd : debitNormal a.account_type = true
  · rw [if_pos hd, if_pos ((debitNormal_iff a.account_type).mp hd)]
    exact sumEntry_sub (balanceEntries s aid asOf)
  · rw [if_neg hd, if_neg (fun hc => hd ((debitNormal_iff a.account_type).mpr hc))]
    have := sumEntry_sub (balanceEntries s aid asOf)
    linarith

/-- Scenario A instantiation of the idealized polarity lemma: after posting
debit 10000 to the asset account `1110` (credit 10000 to `3100`), its
balance is the signed entry sum 10000; the credit-normal account `3100`
reads 10000 as well, the negation of its signed sum −10000.  (10000 is
exactly representable in binary64, so on this input the real program agrees
with the idealization.) -/
theorem get_account_balance_polarity_witness :
    scenarioAStore.accounts.find? (fun x => x.id == "1110") =
      some ⟨"1110", "Cash and Bank Accounts", .ASSET, some "1100", "", true⟩ ∧
    get_account_balance scenarioAStore "1110" none = 10000 ∧
    signedSum (balanceEntries scenarioAStore "1110" none) = 10000 ∧
    get_account_balance scenarioAStore "3100" none = 10000 ∧
    signedSum (balanceEntries scenarioAStore "3100" none) = -10000 := by
  refine ⟨by decide, ?_, by decide, ?_, by decide⟩
  · rw [get_account_balance_polarity scenarioAStore "1110"
      ⟨"1110", "Cash and Bank Accounts", .ASSET, some "1100", "", true⟩ none (by decide)]
    rw [if_pos (Or.inl rfl)]
    decide
  · rw [get_account_balance_polarity scenarioAStore "3100"
      ⟨"3100", "Owner's Equity", .EQUITY, some "3000", "", true⟩ none (by decide)]
    rw [if_neg (by intro hc; rcases hc with h | h <;> exact AccountType.noConfusion h)]
    have : signedSum (balanceEntries scenarioAStore "3100" none) = -10000 := by decide
    rw [this]
    norm_num

/-- Claim C4 (code-bug exhibit): `get_account_balance` does not return the
claimed `normal_sign(T) × Σ (debit − credit)` of the posted amounts, because
the store never holds the posted amounts: `create_transaction` casts them
through `float()` into `REAL` columns and the balance reads back
`Decimal(str(...))` of a binary64 `SUM`.  On the failing input — debits
`0.10` and `0.20` posted to the asset account `1110` in two balanced
transactions (`c2Store`) — the claimed formula gives exactly `0.30` (first
two conjuncts: over the posted values the polarity branch does compute the
signed sum, and that sum is `3/10`).  The binary64 sum the `REAL` column
yields, `storedDebitSum [0.1, 0.2]`, differs from both `3/10` and
`rnd64 (3/10)` (last two conjuncts); since CPython's `str` of a float is the
shortest decimal denoting the same double, a read-back equal to `0.30` would
force the stored sum to be `rnd64 (3/10)` — so the program returns
`Decimal('0.30000000000000004')`, not the claim's `0.30`.  The slip is the
serialization the spec (§2, §9) forbids, the same bug exhibited for the
persistence claim. -/
theorem get_account_balance_float_divergence :
    get_account_balance c2Store "1110" none =
      signedSum (balanceEntries c2Store "1110" none) ∧
    signedSum (balanceEntries c2Store "1110" none) = 3 / 10 ∧
    storedDebitSum [1 / 10, 2 / 10] ≠ 3 / 10 ∧
    storedDebitSum [1 / 10, 2 / 10] ≠ rnd64 (3 / 10) := by
  refine ⟨by decide, by decide, by decide, by decide⟩

/-! ### Claim C3 -/

theorem find?_key_nodup {α : Type} (key : α → String) :
    ∀ (l : List α) (x : α), (l.map key).Nodup → x ∈ l →
      l.find? (fun y => key y == key x) = some x := by
  intro l
  induction l with
  | nil => intro x _ hx; exact absurd hx (List.not_mem_nil x)
  | cons h t ih =>
      intro x hnd hx
      rw [List.map_cons] at hnd
      rcases List.mem_cons.mp hx with rfl | hxt
      · exact List.find?_cons_of_pos t (by simp)
      · have hne : key h ≠ key x := by
          intro he
          exact (List.nodup_cons.mp hnd).1
            (he ▸ List.mem_map_of_mem key hxt)
        rw [List.find?_cons_of_neg t (by simpa using hne)]
        exact ih x (List.nodup_cons.mp hnd).2 hxt

theorem sum_map_filter_split {α : Type} (l : List α) (p : α → Bool) (f : α → ℚ) :
    ((l.filter p).map f).sum + ((l.filter (fun x => !(p x))).map f).sum
      = (l.map f).sum := by
  induction l with
  | nil => simp
  | cons x t ih =>
      by_cases hx : p x = true
      · simp [List.filter_cons, hx]
        linarith
      · have hx2 : p x = false := by simpa using hx
        simp [List.filter_cons, hx2]
        linarith

theorem sum_partition_by_keys {α : Type} (key : α → String) (f : α → ℚ) :
    ∀ keys : List String, keys.Nodup → ∀ l : List α,
      (∀ x ∈ l, key x ∈ keys) →
      (keys.map (fun k => ((l.filter (fun x => key x == k)).map f).sum)).sum
        = (l.map f).sum := by
  intro keys
  induction keys with
  | nil =>
      intro _ l hmem
      have hl : l = [] := List.eq_nil_iff_forall_not_mem.mpr
        (fun x hx => absurd (hmem x hx) (List.not_mem_nil _))
      subst hl
      simp
  | cons k ks ih =>
      intro hnd l hmem
      have hk_not : k ∉ ks := (List.nodup_cons.mp hnd).1
      simp only [List.map_cons, List.sum_cons]
      have hstep : ∀ k2 ∈ ks, l.filter (fun x => key x == k2) =
          (l.filter (fun x => !(key x == k))).filter (fun x => key x == k2) := by
        intro k2 hk2
        rw [List.filter_filter]
        refine (List.filter_congr ?_).symm
        intro x _
        by_cases hc : key x = k2
        · have hf : (key x == k) = false := by
            have hne : key x ≠ k := fun he => hk_not (he ▸ hc ▸ hk2)
            simpa using hne
          simp [hc, hf]
          exact fun he => hk_not (he ▸ hk2)
        · simp [hc]
      have hmap : ks.map (fun k2 => ((l.filter (fun x => key x == k2)).map f).sum)
          = ks.map (fun k2 =>
              (((l.filter (fun x => !(key x == k))).filter
                (fun x => key x == k2)).map f).sum) :=
        List.map_congr_left (fun k2 hk2 => by rw [hstep k2 hk2])
      rw [hmap,
        ih (List.nodup_cons.mp hnd).2 (l.filter (fun x => !(key x == k)))
          (fun x hx => by
            have hxl := List.mem_of_mem_filter hx
            have hxk : (key x == k) = false := by
              have := List.of_mem_filter hx
              simpa using this
            rcases List.mem_cons.mp (hmem x hxl) with he | he
            · exact absurd hxk (by simp [he])
            · exact he)]
      exact sum_map_filter_split l (fun x => key x == k) f

theorem get_account_balance_of_find (s : Store) (a : Account) (asOf : Option Nat)
    (hfind : s.accounts.find? (fun x => x.id == a.id) = some a) :
    get_account_balance s a.id asOf =
      (if debitNormal a.account_type then rawBalance s a.id asOf
       else -rawBalance s a.id asOf) := by
  have hh : get_account_balance s a.id asOf =
      (if debitNormal a.account_type then
        sumEntryDebits (balanceEntries s a.id asOf) -
          sumEntryCredits (balanceEntries s a.id asOf)
      else
        sumEntryCredits (balanceEntries s a.id asOf) -
          sumEntryDebits (balanceEntries s a.id asOf)) := by
    unfold get_account_balance
    rw [hfind]
  rw [hh]
  unfold rawBalance
  by_cases hd : debitNormal a.account_type = true
  · rw [if_pos hd, if_pos hd]
    exact sumEntry_sub (balanceEntries s a.id asOf)
  · rw [if_neg hd, if_neg hd]
    have := sumEntry_sub (balanceEntries s a.id asOf)
    linarith

theorem tbStep_diff (s : Store) (asOf : Option Nat) (acc : TBAcc) (a : Account)
    (hfind : s.accounts.find? (fun x => x.id == a.id) = some a) :
    (tbStep s asOf acc a).totalD - (tbStep s asOf acc a).totalC =
      acc.totalD - acc.totalC + rawBalance s a.id asOf := by
  have hb := get_account_balance_of_find s a asOf hfind
  unfold tbStep
  by_cases hd : debitNormal a.account_type = true
  · rw [if_pos hd] at hb
    rcases lt_trichotomy (rawBalance s a.id asOf) 0 with hlt | heq | hgt
    · rw [if_pos (by rw [hb]; exact ne_of_lt hlt),
        if_neg (by rw [hb]; intro hcon; linarith [hcon.2]),
        if_neg (by rw [hb]; intro hcon; simp [hd] at hcon),
        if_pos (by rw [hb]; exact hlt), if_pos hd]
      simp only
      rw [hb, abs_of_neg hlt]
      ring
    · rw [if_neg (by rw [hb, heq]; simp)]
      simp [heq]
    · rw [if_pos (by rw [hb]; exact ne_of_gt hgt),
        if_pos (by rw [hb]; exact ⟨hd, hgt⟩)]
      simp only
      rw [hb]
      ring
  · rw [if_neg hd] at hb
    rcases lt_trichotomy (rawBalance s a.id asOf) 0 with hlt | heq | hgt
    · rw [if_pos (by rw [hb]; simpa using ne_of_gt (by linarith : (0:ℚ) < -rawBalance s a.id asOf)),
        if_neg (by rw [hb]; intro hcon; exact hd hcon.1),
        if_pos (by rw [hb]; refine ⟨by simpa using hd, by linarith⟩)]
      simp only
      rw [hb]
      ring
    · rw [if_neg (by rw [hb, heq]; simp)]
      simp [heq]
    · rw [if_pos (by rw [hb]; simpa using ne_of_lt (by linarith : -rawBalance s a.id asOf < 0)),
        if_neg (by rw [hb]; intro hcon; exact hd hcon.1),
        if_neg (by rw [hb]; intro hcon; linarith [hcon.2]),
        if_pos (by rw [hb]; linarith), if_neg hd]
      simp only
      rw [hb, abs_of_neg (by linarith : -rawBalance s a.id asOf < 0)]
      ring

theorem tb_foldl_diff (s : Store) (asOf : Option Nat)
    (hnd : (s.accounts.map (·.id)).Nodup) :
    ∀ (accs : List Account), (∀ a ∈ accs, a ∈ s.accounts) → ∀ acc : TBAcc,
      (accs.foldl (tbStep s asOf) acc).totalD -
        (accs.foldl (tbStep s asOf) acc).totalC =
      acc.totalD - acc.totalC +
        (accs.map (fun a => rawBalance s a.id asOf)).sum := by
  intro accs
  induction accs with
  | nil => intro _ acc; simp
  | cons a t ih =>
      intro hmem acc
      simp only [List.foldl_cons, List.map_cons, List.sum_cons]
      rw [ih (fun x hx => hmem x (List.mem_cons_of_mem a hx)) (tbStep s asOf acc a)]
      have hfind := find?_key_nodup (fun x : Account => x.id) s.accounts a hnd
        (hmem a (List.mem_cons_self a t))
      rw [tbStep_diff s asOf acc a hfind]
      ring

theorem balanceEntries_restructure (s : Store) (aid : String) (asOf : Option Nat) :
    balanceEntries s aid asOf =
      (s.entries.filter (fun e => dateOk s asOf e)).filter
        (fun e => e.account_id == aid) := by
  unfold balanceEntries
  rw [List.filter_filter]

theorem dateOk_none (s : Store) (e : Entry) : dateOk s none e = true := rfl

theorem entriesOfTxn_dateFiltered (s : Store) (dt : Nat) (t : Txn)
    (hndT : (s.transactions.map (·.id)).Nodup) (ht : t ∈ s.transactions)
    (hdt : t.tdate ≤ dt) :
    (s.entries.filter (fun e => dateOk s (some dt) e)).filter
        (fun e => e.transaction_id == t.id) =
      entriesOfTxn s t.id := by
  unfold entriesOfTxn
  rw [List.filter_filter]
  refine List.filter_congr ?_
  intro e _
  by_cases hc : e.transaction_id = t.id
  · have hok : dateOk s (some dt) e = true := by
      unfold dateOk
      rw [hc]
      rw [find?_key_nodup (fun x : Txn => x.id) s.transactions t hndT ht]
      simpa using hdt
    simp [hc, hok]
  · simp [hc]

theorem sum_rawBalance_zero (s : Store) (asOf : Option Nat)
    (hndA : (s.accounts.map (·.id)).Nodup)
    (hndT : (s.transactions.map (·.id)).Nodup)
    (hbal : ∀ t ∈ s.transactions,
      sumEntryDebits (entriesOfTxn s t.id) = sumEntryCredits (entriesOfTxn s t.id))
    (href : ∀ e ∈ s.entries, ∃ a ∈ s.accounts, a.id = e.account_id ∧ a.is_active = true)
    (hetxn : ∀ e ∈ s.entries, ∃ t ∈ s.transactions, t.id = e.transaction_id) :
    ((s.accounts.filter (·.is_active)).map
      (fun a => rawBalance s a.id asOf)).sum = 0 := by
  have hfdc : ∀ es : List Entry, signedSum es =
      (es.map (fun e => e.debit_amount - e.credit_amount)).sum := fun es => rfl
  -- Step 1: the per-account sums partition the date-filtered entry rows.
  have hstep1 : ((s.accounts.filter (·.is_active)).map
      (fun a => rawBalance s a.id asOf)).sum =
      ((s.entries.filter (fun e => dateOk s asOf e)).map
        (fun e => e.debit_amount - e.credit_amount)).sum := by
    have hkeys_nodup : (((s.accounts.filter (·.is_active)).map (·.id))).Nodup :=
      List.Nodup.sublist (List.Sublist.map _ (List.filter_sublist s.accounts)) hndA
    have hmem : ∀ e ∈ s.entries.filter (fun e => dateOk s asOf e),
        e.account_id ∈ (s.accounts.filter (·.is_active)).map (·.id) := by
      intro e he
      obtain ⟨a, ha, haid, hact⟩ := href e (List.mem_of_mem_filter he)
      refine List.mem_map.mpr ⟨a, List.mem_filter.mpr ⟨ha, hact⟩, haid⟩
    have hpart := sum_partition_by_keys (fun e : Entry => e.account_id)
      (fun e => e.debit_amount - e.credit_amount)
      ((s.accounts.filter (·.is_active)).map (·.id)) hkeys_nodup
      (s.entries.filter (fun e => dateOk s asOf e)) hmem
    calc ((s.accounts.filter (·.is_active)).map
        (fun a => rawBalance s a.id asOf)).sum
        = (((s.accounts.filter (·.is_active)).map (·.id)).map
            (fun k => (((s.entries.filter (fun e => dateOk s asOf e)).filter
              (fun e => e.account_id == k)).map
                (fun e => e.debit_amount - e.credit_amount)).sum)).sum := by
          rw [List.map_map]
          refine congrArg List.sum (List.map_congr_left ?_)
          intro a _
          unfold rawBalance
          rw [hfdc, balanceEntries_restructure]
          rfl
      _ = _ := hpart
  rw [hstep1]
  -- Step 2: the date-filtered entry rows partition by transaction, and each
  -- transaction's rows sum to zero by the balanced invariant.
  rcases asOf with _ | dt
  · have hfilter : s.entries.filter (fun e => dateOk s none e) = s.entries := by
      refine List.filter_eq_self.mpr ?_
      intro e _
      rfl
    rw [hfilter]
    have hmem : ∀ e ∈ s.entries, e.transaction_id ∈ s.transactions.map (·.id) := by
      intro e he
      obtain ⟨t, ht, hid⟩ := hetxn e he
      exact List.mem_map.mpr ⟨t, ht, hid⟩
    rw [← sum_partition_by_keys (fun e : Entry => e.transaction_id)
      (fun e => e.debit_amount - e.credit_amount)
      (s.transactions.map (·.id)) hndT s.entries hmem]
    refine List.sum_eq_zero ?_
    intro x hx
    obtain ⟨k, hk, rfl⟩ := List.mem_map.mp hx
    obtain ⟨t, ht, rfl⟩ := List.mem_map.mp hk
    have : (s.entries.filter (fun e => e.transaction_id == t.id)) =
        entriesOfTxn s t.id := rfl
    rw [this, ← hfdc, ← sumEntry_sub (entriesOfTxn s t.id), hbal t ht]
    ring
  · have hmem : ∀ e ∈ s.entries.filter (fun e => dateOk s (some dt) e),
        e.transaction_id ∈
          (s.transactions.filter (fun t => decide (t.tdate ≤ dt))).map (·.id) := by
      intro e he
      have hok := List.of_mem_filter he
      unfold dateOk at hok
      rcases hfind : s.transactions.find? (fun t => t.id == e.transaction_id) with _ | t
      · rw [hfind] at hok
        exact absurd hok (by simp)
      · rw [hfind] at hok
        have ht := List.mem_of_find?_eq_some hfind
        have hid : t.id = e.transaction_id := by
          simpa using List.find?_some hfind
        refine List.mem_map.mpr ⟨t, List.mem_filter.mpr ⟨ht, by simpa using hok⟩, hid⟩
    have hkeys_nodup :
        ((s.transactions.filter (fun t => decide (t.tdate ≤ dt))).map (·.id)).Nodup :=
      List.Nodup.sublist (List.Sublist.map _ (List.filter_sublist s.transactions)) hndT
    rw [← sum_partition_by_keys (fun e : Entry => e.transaction_id)
      (fun e => e.debit_amount - e.credit_amount)
      ((s.transactions.filter (fun t => decide (t.tdate ≤ dt))).map (·.id))
      hkeys_nodup (s.entries.filter (fun e => dateOk s (some dt) e)) hmem]
    refine List.sum_eq_zero ?_
    intro x hx
    obtain ⟨k, hk, rfl⟩ := List.mem_map.mp hx
    obtain ⟨t, ht, rfl⟩ := List.mem_map.mp hk
    have hta := List.mem_of_mem_filter ht
    have htd : t.tdate ≤ dt := by simpa using List.of_mem_filter ht
    rw [entriesOfTxn_dateFiltered s dt t hndT hta htd,
      ← hfdc, ← sumEntry_sub (entriesOfTxn s t.id), hbal t hta]
    ring

theorem map_key_of_pointwise {α : Type} (u : α → α) (key : α → String) (l : List α)
    (h : ∀ x, key (u x) = key x) : (l.map u).map key = l.map key := by
  rw [List.map_map]
  exact List.map_congr_left (fun x _ => h x)

theorem filter_tx_stable (E : List Entry) (tid q : String) (hne : q ≠ tid) :
    (E.filter (fun e => !(e.transaction_id == tid))).filter
        (fun e => e.transaction_id == q) =
      E.filter (fun e => e.transaction_id == q) := by
  rw [List.filter_filter]
  refine List.filter_congr ?_
  intro e _
  by_cases hc : e.transaction_id = q
  · have hf : (e.transaction_id == tid) = false := by simp [hc, hne]
    simp [hc, hf]
    exact hne
  · simp [hc]

theorem filter_tx_nil_of_all (newE : List Entry) (tid q : String) (hne : q ≠ tid)
    (hall : ∀ x ∈ newE, x.transaction_id = tid) :
    newE.filter (fun e => e.transaction_id == q) = [] := by
  refine List.filter_eq_nil_iff.mpr ?_
  intro x hx
  rw [hall x hx]
  simp
  exact fun he => hne he.symm

theorem filter_tx_self_of_all (newE : List Entry) (tid : String)
    (hall : ∀ x ∈ newE, x.transaction_id = tid) :
    newE.filter (fun e => e.transaction_id == tid) = newE := by
  refine List.filter_eq_self.mpr ?_
  intro x hx
  simp [hall x hx]

theorem newEntries_tx (tid : String) (entries : List EntryInput) :
    ∀ x ∈ entries.enum.map (fun p =>
      Entry.mk (tid ++ "_" ++ natToStr (p.1 + 1)) tid p.2.account_id
        p.2.debit p.2.credit p.2.description),
      x.transaction_id = tid := by
  intro x hx
  obtain ⟨p, _, rfl⟩ := List.mem_map.mp hx
  rfl

theorem sumEntryDebits_newEntries (tid : String) (entries : List EntryInput) :
    sumEntryDebits (entries.enum.map (fun p =>
      Entry.mk (tid ++ "_" ++ natToStr (p.1 + 1)) tid p.2.account_id
        p.2.debit p.2.credit p.2.description)) = sumDebits entries := by
  unfold sumEntryDebits sumDebits
  have h0 : (entries.enum.map (fun p =>
      Entry.mk (tid ++ "_" ++ natToStr (p.1 + 1)) tid p.2.account_id
        p.2.debit p.2.credit p.2.description)).map (fun e => e.debit_amount)
      = entries.enum.map (fun p : Nat × EntryInput => p.2.debit) := by
    rw [List.map_map]
    rfl
  have h1 : entries.enum.map (fun p : Nat × EntryInput => p.2.debit)
      = (entries.enum.map Prod.snd).map (fun x : EntryInput => x.debit) := by
    rw [List.map_map]
    rfl
  rw [h0, h1, List.enum_map_snd]

theorem sumEntryCredits_newEntries (tid : String) (entries : List EntryInput) :
    sumEntryCredits (entries.enum.map (fun p =>
      Entry.mk (tid ++ "_" ++ natToStr (p.1 + 1)) tid p.2.account_id
        p.2.debit p.2.credit p.2.description)) = sumCredits entries := by
  unfold sumEntryCredits sumCredits
  have h0 : (entries.enum.map (fun p =>
      Entry.mk (tid ++ "_" ++ natToStr (p.1 + 1)) tid p.2.account_id
        p.2.debit p.2.credit p.2.description)).map (fun e => e.credit_amount)
      = entries.enum.map (fun p : Nat × EntryInput => p.2.credit) := by
    rw [List.map_map]
    rfl
  have h1 : entries.enum.map (fun p : Nat × EntryInput => p.2.credit)
      = (entries.enum.map Prod.snd).map (fun x : EntryInput => x.credit) := by
    rw [List.map_map]
    rfl
  rw [h0, h1, List.enum_map_snd]

theorem storeOk_create_account (s : Store) (aid nm : String) (atype : AccountType)
    (parent : Option String) (descr : String) (h : StoreOk s) :
    StoreOk (create_account s aid nm atype parent descr).2 := by
  obtain ⟨hA, hT, hB, hE⟩ := h
  unfold create_account
  by_cases hc : s.accounts.any (fun a => a.id == aid) = true
  · rw [if_pos hc]
    exact ⟨hA, hT, hB, hE⟩
  · rw [if_neg hc]
    refine ⟨?_, hT, hB, hE⟩
    simp only [List.map_append, List.map_cons, List.map_nil]
    rw [List.nodup_append]
    refine ⟨hA, List.nodup_singleton aid, ?_⟩
    intro b hb hb2
    have hb3 : b = aid := by simpa using hb2
    subst hb3
    obtain ⟨a, ha, haid⟩ := List.mem_map.mp hb
    exact hc (List.any_eq_true.mpr ⟨a, ha, by simp [haid]⟩)

theorem storeOk_append_txn (s : Store) (txn : Txn) (newE : List Entry)
    (hfresh : txn.id ∉ s.transactions.map (·.id))
    (hall : ∀ x ∈ newE, x.transaction_id = txn.id)
    (hbalnew : sumEntryDebits newE = sumEntryCredits newE)
    (h : StoreOk s) :
    StoreOk ⟨s.accounts, s.transactions ++ [txn], s.entries ++ newE⟩ := by
  obtain ⟨hA, hT, hB, hE⟩ := h
  refine ⟨hA, ?_, ?_, ?_⟩
  · simp only [List.map_append, List.map_cons, List.map_nil]
    rw [List.nodup_append]
    refine ⟨hT, List.nodup_singleton _, ?_⟩
    intro b hb hb2
    have hb3 : b = txn.id := by simpa using hb2
    exact hfresh (hb3 ▸ hb)
  · intro t ht
    have hgoal : entriesOfTxn
        ⟨s.accounts, s.transactions ++ [txn], s.entries ++ newE⟩ t.id =
        (s.entries ++ newE).filter (fun e => e.transaction_id == t.id) := rfl
    rcases List.mem_append.mp ht with htold | htnew
    · have htne : t.id ≠ txn.id := fun he =>
        hfresh (he ▸ List.mem_map_of_mem (fun x => x.id) htold)
      rw [hgoal, List.filter_append,
        filter_tx_nil_of_all newE txn.id t.id htne hall, List.append_nil]
      exact hB t htold
    · have hteq : t = txn := by simpa using htnew
      subst hteq
      have hold : s.entries.filter (fun e => e.transaction_id == t.id) = [] := by
        refine List.filter_eq_nil_iff.mpr ?_
        intro e he hbeq
        obtain ⟨t2, ht2, hid2⟩ := hE e he
        have heq : e.transaction_id = t.id := by simpa using hbeq
        exact hfresh (heq ▸ hid2 ▸ List.mem_map_of_mem (fun x => x.id) ht2)
      rw [hgoal, List.filter_append, hold, List.nil_append,
        filter_tx_self_of_all newE t.id hall]
      exact hbalnew
  · intro e he
    rcases List.mem_append.mp he with heold | henew
    · obtain ⟨t, ht, hid⟩ := hE e heold
      exact ⟨t, List.mem_append.mpr (Or.inl ht), hid⟩
    · exact ⟨txn, List.mem_append.mpr (Or.inr (List.mem_singleton.mpr rfl)),
        (hall e henew).symm⟩

theorem storeOk_create_transaction (s : Store) (tid : String) (tdate : Nat)
    (descr : String) (entries : List EntryInput) (ref : String) (h : StoreOk s) :
    StoreOk (create_transaction s tid tdate descr entries ref).2 := by
  by_cases h1 : sumDebits entries ≠ sumCredits entries
  · have hs : (create_transaction s tid tdate descr entries ref).2 = s := by
      unfold create_transaction
      rw [if_pos h1]
    rw [hs]
    exact h
  · by_cases h2 : s.transactions.any (fun t => t.id == tid) = true
    · have hs : (create_transaction s tid tdate descr entries ref).2 = s := by
        unfold create_transaction
        rw [if_neg h1, if_pos h2]
      rw [hs]
      exact h
    · have h2f : s.transactions.any (fun t => t.id == tid) = false := by
        simpa using h2
      rw [create_transaction_success_shape s tid tdate descr entries ref
        (not_ne_iff.mp h1) h2f]
      refine storeOk_append_txn s ⟨tid, tdate, descr, ref⟩ _ ?_
        (newEntries_tx tid entries) ?_ h
      · intro hmem
        obtain ⟨t, ht, hid⟩ := List.mem_map.mp hmem
        exact h2 (List.any_eq_true.mpr ⟨t, ht, by simp [hid]⟩)
      · rw [sumEntryDebits_newEntries, sumEntryCredits_newEntries]
        exact not_ne_iff.mp h1

theorem storeOk_delete_transaction (s : Store) (tid : String) (h : StoreOk s) :
    StoreOk (delete_transaction s tid) := by
  obtain ⟨hA, hT, hB, hE⟩ := h
  unfold delete_transaction
  refine ⟨hA, ?_, ?_, ?_⟩
  · exact List.Nodup.sublist (List.Sublist.map _ (List.filter_sublist _)) hT
  · intro t ht
    have htmem := List.mem_of_mem_filter ht
    have htne : t.id ≠ tid := by
      have := List.of_mem_filter ht
      simpa using this
    show sumEntryDebits ((s.entries.filter
        (fun e => !(e.transaction_id == tid))).filter
          (fun e => e.transaction_id == t.id)) =
      sumEntryCredits ((s.entries.filter
        (fun e => !(e.transaction_id == tid))).filter
          (fun e => e.transaction_id == t.id))
    rw [filter_tx_stable s.entries tid t.id htne]
    exact hB t htmem
  · intro e he
    have hemem := List.mem_of_mem_filter he
    have hene : e.transaction_id ≠ tid := by
      have := List.of_mem_filter he
      simpa using this
    obtain ⟨t, ht, hid⟩ := hE e hemem
    refine ⟨t, List.mem_filter.mpr ⟨ht, by simp [hid, hene]⟩, hid⟩

theorem storeOk_toggle_account (s : Store) (aid : String) (h : StoreOk s) :
    StoreOk (toggle_account s aid) := by
  obtain ⟨hA, hT, hB, hE⟩ := h
  unfold toggle_account
  refine ⟨?_, hT, hB, hE⟩
  rw [map_key_of_pointwise _ (fun a : Account => a.id) s.accounts ?_]
  · exact hA
  · intro a
    by_cases hc : a.id = aid
    · simp [hc]
    · simp [hc]

theorem storeOk_delete_account (s : Store) (aid : String) (h : StoreOk s) :
    StoreOk (delete_account s aid) := by
  obtain ⟨hA, hT, hB, hE⟩ := h
  unfold delete_account
  by_cases hc : get_account_balance s aid none ≠ 0
  · rw [if_pos hc]
    exact ⟨hA, hT, hB, hE⟩
  · rw [if_neg hc]
    exact ⟨List.Nodup.sublist (List.Sublist.map _ (List.filter_sublist _)) hA,
      hT, hB, hE⟩

theorem storeOk_edit_account (s : Store) (aid nm : String) (atype : AccountType)
    (parent : Option String) (descr : String) (active : Bool) (h : StoreOk s) :
    StoreOk (edit_account s aid nm atype parent descr active) := by
  obtain ⟨hA, hT, hB, hE⟩ := h
  unfold edit_account
  refine ⟨?_, hT, hB, hE⟩
  rw [map_key_of_pointwise _ (fun a : Account => a.id) s.accounts ?_]
  · exact hA
  · intro a
    by_cases hc : a.id = aid
    · simp [hc]
    · simp [hc]

theorem storeOk_edit_transaction (s : Store) (tid : String) (tdate : Nat)
    (descr ref : String) (entries : List EntryInput)
    (hex : s.transactions.any (fun t => t.id == tid) = true) (h : StoreOk s) :
    StoreOk (edit_transaction s tid tdate descr ref entries).2 := by
  obtain ⟨hA, hT, hB, hE⟩ := h
  unfold edit_transaction
  by_cases h1 : sumDebits entries ≠ sumCredits entries
  · rw [if_pos h1]
    exact ⟨hA, hT, hB, hE⟩
  · rw [if_neg h1]
    show StoreOk ⟨s.accounts,
      s.transactions.map (fun t =>
        if t.id == tid then Txn.mk t.id tdate descr ref else t),
      s.entries.filter (fun e => !(e.transaction_id == tid)) ++
        entries.enum.map (fun p =>
          Entry.mk (tid ++ "_" ++ natToStr (p.1 + 1)) tid p.2.account_id
            p.2.debit p.2.credit p.2.description)⟩
    have huid : ∀ t : Txn,
        (if t.id == tid then Txn.mk t.id tdate descr ref else t).id = t.id := by
      intro t
      by_cases hc : t.id = tid <;> simp [hc]
    have hall := newEntries_tx tid entries
    have hids := map_key_of_pointwise
      (fun t => if t.id == tid then Txn.mk t.id tdate descr ref else t)
      (fun t : Txn => t.id) s.transactions huid
    refine ⟨hA, ?_, ?_, ?_⟩
    · rw [hids]
      exact hT
    · intro t2 ht2
      obtain ⟨t, ht, hteq⟩ := List.mem_map.mp ht2
      have ht2id : t2.id = t.id := by
        rw [← hteq]
        exact huid t
      show sumEntryDebits ((s.entries.filter (fun e => !(e.transaction_id == tid)) ++
          entries.enum.map (fun p =>
            Entry.mk (tid ++ "_" ++ natToStr (p.1 + 1)) tid p.2.account_id
              p.2.debit p.2.credit p.2.description)).filter
            (fun e => e.transaction_id == t2.id)) =
        sumEntryCredits ((s.entries.filter (fun e => !(e.transaction_id == tid)) ++
          entries.enum.map (fun p =>
            Entry.mk (tid ++ "_" ++ natToStr (p.1 + 1)) tid p.2.account_id
              p.2.debit p.2.credit p.2.description)).filter
            (fun e => e.transaction_id == t2.id))
      by_cases hc : t2.id = tid
      · have hnil : (s.entries.filter
            (fun e => !(e.transaction_id == tid))).filter
              (fun e => e.transaction_id == tid) = [] := by
          rw [List.filter_filter]
          refine List.filter_eq_nil_iff.mpr ?_
          intro e _
          by_cases hc2 : e.transaction_id = tid <;> simp [hc2]
        rw [hc, List.filter_append, hnil, List.nil_append,
          filter_tx_self_of_all _ tid hall,
          sumEntryDebits_newEntries, sumEntryCredits_newEntries]
        exact not_ne_iff.mp h1
      · rw [List.filter_append, filter_tx_nil_of_all _ tid t2.id hc hall,
          List.append_nil, filter_tx_stable s.entries tid t2.id hc, ht2id]
        exact hB t ht
    · intro e he
      rcases List.mem_append.mp he with heold | henew
      · have hemem := List.mem_of_mem_filter heold
        obtain ⟨t, ht, hid⟩ := hE e hemem
        refine ⟨_, List.mem_map_of_mem _ ht, ?_⟩
        rw [huid t]
        exact hid
      · obtain ⟨t0, ht0, hbeq⟩ := List.any_eq_true.mp hex
        have ht0id : t0.id = tid := by simpa using hbeq
        refine ⟨_, List.mem_map_of_mem _ ht0, ?_⟩
        rw [huid t0, ht0id, hall e henew]

theorem storeOk_init : StoreOk initStore := by
  refine ⟨by decide, by decide, by decide, by decide⟩

theorem reachable_storeOk : ∀ s : Store, Reachable s → StoreOk s := by
  intro s h
  induction h with
  | init => exact storeOk_init
  | step_create_account s aid nm atype parent descr _ ih =>
      exact storeOk_create_account s aid nm atype parent descr ih
  | step_create_transaction s tid tdate descr entries ref _ ih =>
      exact storeOk_create_transaction s tid tdate descr entries ref ih
  | step_delete_transaction s tid _ ih =>
      exact storeOk_delete_transaction s tid ih
  | step_edit_transaction s tid tdate descr ref entries hex _ ih =>
      exact storeOk_edit_transaction s tid tdate descr ref entries hex ih
  | step_toggle_account s aid _ ih =>
      exact storeOk_toggle_account s aid ih
  | step_delete_account s aid _ ih =>
      exact storeOk_delete_account s aid ih
  | step_edit_account s aid nm atype parent descr active _ ih =>
      exact storeOk_edit_account s aid nm atype parent descr active ih

/-- A second, float-free way the equal-totals property fails on the program:
`create_transaction` does not check that entry account ids exist (SQLite
foreign keys are not enabled), so from a fresh store one balanced posting
`(1110, debit 100), (9999, credit 100)` — where `9999` has no account row —
is reachable; its trial balance lists only the `1110` side and the trailing
row is `("TOTAL", "TOTAL", 100, 0)` with unequal columns.  The amounts here
are binary64-exact integers, so this violation is independent of the `REAL`
serialization. -/
theorem trial_balance_totals_counterexample :
    Reachable danglingStore ∧
    (generate_trial_balance danglingStore none).getLast? =
      some ("TOTAL", "TOTAL", 100, 0) ∧
    ((100 : ℚ) ≠ (0 : ℚ)) := by
  refine ⟨Reachable.step_create_transaction initStore "T1" 20240115 "dangling"
    [⟨"1110", 100, 0, ""⟩, ⟨"9999", 0, 100, ""⟩] "" Reachable.init, ?_, by norm_num⟩
  decide

/-- Exact-decimal idealization of the equal-totals property: over the posted
values (ignoring the binary64 `REAL` serialization), for every reachable
state in which every entry row references an existing, active account, the
trailing `("TOTAL", "TOTAL", ...)` row has equal columns.  Together with the
two divergence exhibits this localizes the real program's total imbalance to
exactly two causes: unvalidated account references and the floating-point
persistence. -/
theorem trial_balance_totals_equal (s : Store) (asOf : Option Nat)
    (hr : Reachable s)
    (href : ∀ e ∈ s.entries, ∃ a ∈ s.accounts,
      a.id = e.account_id ∧ a.is_active = true) :
    ∃ q, (generate_trial_balance s asOf).getLast? =
      some ("TOTAL", "TOTAL", q, q) := by
  obtain ⟨hndA, hndT, hbal, hetxn⟩ := reachable_storeOk s hr
  have hdiff := tb_foldl_diff s asOf hndA (s.accounts.filter (·.is_active))
    (fun a ha => List.mem_of_mem_filter ha) ⟨[], 0, 0⟩
  rw [sum_rawBalance_zero s asOf hndA hndT hbal href hetxn] at hdiff
  have heq : ((s.accounts.filter (·.is_active)).foldl
        (tbStep s asOf) ⟨[], 0, 0⟩).totalC =
      ((s.accounts.filter (·.is_active)).foldl
        (tbStep s asOf) ⟨[], 0, 0⟩).totalD := by
    simp only at hdiff
    linarith
  refine ⟨((s.accounts.filter (·.is_active)).foldl
    (tbStep s asOf) ⟨[], 0, 0⟩).totalD, ?_⟩
  unfold generate_trial_balance
  rw [List.getLast?_concat, heq]

/-- Instantiation of the idealized equal-totals lemma on the Scenario A
store: every entry references an existing active account, and the trailing
trial-balance row carries equal columns (both 10000). -/
theorem trial_balance_totals_equal_witness :
    (∀ e ∈ scenarioAStore.entries, ∃ a ∈ scenarioAStore.accounts,
      a.id = e.account_id ∧ a.is_active = true) ∧
    ∃ q, (generate_trial_balance scenarioAStore none).getLast? =
      some ("TOTAL", "TOTAL", q, q) :=
  ⟨by decide,
    trial_balance_totals_equal scenarioAStore none
      (Reachable.step_create_transaction initStore "TXN-20240115-001" 20240115
        "opening" [⟨"1110", 10000, 0, "cash"⟩, ⟨"3100", 0, 10000, "equity"⟩] ""
        Reachable.init)
      (by decide)⟩

/-- Claim C3 (code-bug exhibit): the trailing `TOTAL` row of the real
program's trial balance does not always carry equal columns, even on a
reachable state whose entries all reference existing, active accounts and
whose transactions all balance exactly.  On `c3fStore` — debits `0.10` and
`0.20` on `1110` against credits `0.10` on `2110` and `0.20` on `2120` —
the exact-decimal totals are `(0.30, 0.30)` (third conjunct), but the real
debit total is the read-back of the binary64 `SUM` over `1110`'s `REAL`
debit column, whose stored value `storedDebitSum [0.1, 0.2]` differs from
both `3/10` and `rnd64 (3/10)` (last conjuncts); by the `str` round-trip it
reads back as `Decimal('0.30000000000000004')`.  The credit total, by
contrast, is the exact Python `Decimal` sum of the two one-entry read-backs
`0.1` and `0.2`, i.e. exactly `0.30`.  So the program prints
`("TOTAL", "TOTAL", Decimal('0.30000000000000004'), Decimal('0.3'))`,
violating the invariant the spec states unconditionally (§4.3, §8) —
through the float serialization §9 calls a correctness bug (and, separately,
through unvalidated account references, exhibited above with exact
amounts). -/
theorem trial_balance_float_divergence :
    Reachable c3fStore ∧
    (∀ e ∈ c3fStore.entries, ∃ a ∈ c3fStore.accounts,
      a.id = e.account_id ∧ a.is_active = true) ∧
    (generate_trial_balance c3fStore none).getLast? =
      some ("TOTAL", "TOTAL", 3 / 10, 3 / 10) ∧
    storedDebitSum [1 / 10, 2 / 10] ≠ 3 / 10 ∧
    storedDebitSum [1 / 10, 2 / 10] ≠ rnd64 (3 / 10) := by
  refine ⟨?_, by decide, by decide, by decide, by decide⟩
  exact Reachable.step_create_transaction _ "T2" 20240111 "b"
    [⟨"1110", 2/10, 0, ""⟩, ⟨"2120", 0, 2/10, ""⟩] ""
    (Reachable.step_create_transaction initStore "T1" 20240110 "a"
      [⟨"1110", 1/10, 0, ""⟩, ⟨"2110", 0, 1/10, ""⟩] "" Reachable.init)
